import Mathlib

/-!
Verification development for the `thedoobot` repository: a shallow embedding of
the two bots (the Fantrax transaction-email processor and the MLB home-run
highlight poller) together with theorems about the embedded code.

Strings are embedded as `List Char`; Python's `re` operations on the fixed
patterns appearing in the source are embedded as explicit scanning functions
whose semantics follow leftmost-match / lazy-group regex evaluation for those
patterns.  Machine-level concerns (base64 transport decoding, the HTML
tokenizer of lxml, the network) are abstracted at the boundary: message bodies
arrive as already-decoded parse trees, and network calls are oracles whose
outcomes are parameters.
-/

namespace Doobot

/-- Character strings, embedded as lists of characters. -/
abbrev Str := List Char

/-- Python `str.lower()` (ASCII range, which covers every pattern in the source). -/
def lowerStr (s : Str) : Str := s.map Char.toLower

/-- Python `str.lstrip()`: drop leading whitespace. -/
def stripL (s : Str) : Str := s.dropWhile Char.isWhitespace

/-- Python `str.rstrip()`: drop trailing whitespace. -/
def stripR (s : Str) : Str := (s.reverse.dropWhile Char.isWhitespace).reverse

/-- Python `str.strip()`: drop leading and trailing whitespace. -/
def strip (s : Str) : Str := stripL (stripR s)

/-- Boolean test that `pat` is a prefix of `s` (by character equality). -/
def isPre : Str → Str → Bool
  | [], _ => true
  | _ :: _, [] => false
  | a :: as, b :: bs => if a = b then isPre as bs else false

/-- Find the first occurrence of `pat` in `s`, returning the text before it and
the text after it.  This is the leftmost-match semantics of
`re.search(re.escape(pat) + "(.*?)" + ..., s)` anchoring at a literal. -/
def splitFirst (pat : Str) : Str → Option (Str × Str)
  | [] => if pat = [] then some ([], []) else none
  | c :: rest =>
    if isPre pat (c :: rest) then some ([], (c :: rest).drop pat.length)
    else
      match splitFirst pat rest with
      | some (a, b) => some (c :: a, b)
      | none => none

/-- Python `pat in s` substring containment. -/
def occurs (pat s : Str) : Bool := (splitFirst pat s).isSome

/-- The first occurrence of `pat` in `x ++ pat ++ y` is the displayed one:
no occurrence of `pat` starts inside `x`. -/
def firstOccAt (pat x y : Str) : Prop :=
  ∀ n, n < x.length → isPre pat ((x ++ (pat ++ y)).drop n) = false

instance (pat x y : Str) : Decidable (firstOccAt pat x y) := by
  unfold firstOccAt; infer_instance

/-- Python `s.rsplit(sep, 1)[-1]`: everything after the last occurrence of
`sep` (or `s` itself when `sep` does not occur).  The last occurrence of `sep`
in `s` corresponds to the first occurrence of `sep.reverse` in `s.reverse`. -/
def rsplitLast (sep s : Str) : Str :=
  match splitFirst sep.reverse s.reverse with
  | none => s
  | some (before, _) => before.reverse

/-! ### Transaction types and the subject classifier (src/transactions/email.py) -/

def CLAIM : String := r"claim"
def DROP : String := r"drop"
def TRADE : String := r"trade"
def BLOCK : String := r"block"
def DRAFT : String := r"draft"
def UNKNOWN : String := r"unknown"

/-- The league name constant from the source. -/
def LEAGUE_NAME : Str := (r"The Don Orsillo Open").toList

/-- The Claim subject pattern. -/
def patClaim : Str := (r"player(s) claimed").toList

/-- The Drop subject pattern. -/
def patDrop : Str := (r"free agents added to pool").toList

/-- The Trade subject pattern. -/
def patTrade : Str := (r"trade executed").toList

/-- The Block subject pattern. -/
def patBlock : Str := (r"trade block changed").toList

/-- The Draft subject pattern. -/
def patDraft : Str := (r"draft pick made").toList

/-- Embedding of `_detect_transaction_type`: lower-case the subject and test
the fixed substrings in priority order. -/
def detect_transaction_type (subject : Str) : String :=
  let s := lowerStr subject
  if occurs patClaim s then CLAIM
  else if occurs patDrop s then DROP
  else if occurs patTrade s then TRADE
  else if occurs patBlock s then BLOCK
  else if occurs patDraft s then DRAFT
  else UNKNOWN

/-! ### The trade-block parser (`_parse_trade_block`) -/

/-- Lazy match of `(.+?)` (one or more non-newline characters, shortest first)
followed by the literal `lit`: returns the shortest nonempty newline-free group
after which `lit` is a prefix of the remainder. -/
def matchDotPlusLazy (lit : Str) : Str → Option Str
  | [] => none
  | c :: rest =>
    if c = '\n' then none
    else if isPre lit rest then some [c]
    else
      match matchDotPlusLazy lit rest with
      | some g => some (c :: g)
      | none => none

/-- Embedding of `re.search(r"- (.+?) has made changes to the Trade Block", text)`:
scan start positions left to right; at each occurrence of `"- "` look for the
shortest nonempty newline-free group followed by the literal. -/
def searchTeam : Str → Option Str
  | [] => none
  | c :: rest =>
    if isPre (('-' : Char) :: [' ']) (c :: rest) then
      match matchDotPlusLazy ((r" has made changes to the Trade Block").toList) ((c :: rest).drop 2) with
      | some g => some g
      | none => searchTeam rest
    else searchTeam rest

/-- Embedding of the inner `extract_section(label, next_label)`:
`re.search(rf"{label}:(.*?){next_label}:", text, re.DOTALL)`, returning the
stripped group, and `""` when there is no match. -/
def extract_section (text label nextLabel : Str) : Str :=
  match splitFirst (label ++ [':']) text with
  | none => []
  | some (_, rest) =>
    match splitFirst (nextLabel ++ [':']) rest with
    | none => []
    | some (mid, _) => strip mid

/-- Embedding of `re.search(r"Stats Needed:(.*?)Comment:", text, re.DOTALL)`
with the stripped group and `""` fallback (written out separately in the
source, with the same anchored-between-literals semantics). -/
def extract_stats_needed (text : Str) : Str :=
  match splitFirst ((r"Stats Needed:").toList) text with
  | none => []
  | some (_, rest) =>
    match splitFirst ((r"Comment:").toList) rest with
    | none => []
    | some (mid, _) => strip mid

/-- Embedding of `re.search(r"Comment:(.*?)(?:Note that|$)", text, re.DOTALL)`:
the group runs from the first `"Comment:"` to the first following
`"Note that"`, or to the end of the text when that literal is absent. -/
def extract_comment (text : Str) : Str :=
  match splitFirst ((r"Comment:").toList) text with
  | none => []
  | some (_, rest) =>
    match splitFirst ((r"Note that").toList) rest with
    | some (mid, _) => strip mid
    | none => strip rest

/-- One separator step of `re.split(r"\n+|\s{2,}", s)` at the head of `s`:
`\n+` (a maximal run of newlines) is tried first, else `\s{2,}` (a maximal run
of at least two whitespace characters); returns the remainder after the
separator, or `none` when no separator starts here. -/
def matchSepDrop : Str → Option Str
  | [] => none
  | c :: rest =>
    if c = '\n' then some (rest.dropWhile (fun x => x = '\n'))
    else
      match rest with
      | [] => none
      | d :: rest₂ =>
        if c.isWhitespace && d.isWhitespace then some (rest₂.dropWhile Char.isWhitespace)
        else none

/-- Fuelled splitting loop for `re.split(r"\n+|\s{2,}", s)`; the fuel is an
upper bound on the number of characters still to scan. -/
def resplitFuel : Nat → Str → Str → List Str
  | _, acc, [] => [acc.reverse]
  | 0, acc, s => [acc.reverse ++ s]
  | fuel + 1, acc, c :: rest =>
    match matchSepDrop (c :: rest) with
    | some s' => acc.reverse :: resplitFuel fuel [] s'
    | none => resplitFuel fuel (c :: acc) rest

/-- Embedding of `re.split(r"\n+|\s{2,}", s)`. -/
def resplit (s : Str) : List Str := resplitFuel s.length [] s

/-- The sentinel default text for missing trade-block sections. -/
def noneSpecified : Str := (r"(None specified)").toList

/-- Python `s or "(None specified)"` on a string. -/
def orNoneSpecified (s : Str) : Str := if s = [] then noneSpecified else s

/-- The parsed trade-block offer (the dict built by `_parse_trade_block`). -/
structure TradeBlock where
  team : Str
  players_offered : List Str
  positions_offered : Str
  stats_offered : Str
  positions_needed : Str
  stats_needed : Str
  comment : Str
deriving DecidableEq, Repr

/-- Embedding of `_parse_trade_block`. -/
def parse_trade_block (text : Str) : Option TradeBlock :=
  match searchTeam text with
  | none => none
  | some g =>
    let team0 := strip g
    let team :=
      if occurs ((r" - ").toList) team0 then strip (rsplitLast ((r" - ").toList) team0)
      else team0
    let players_raw := extract_section text ((r"Players Offered").toList) ((r"Positions Offered").toList)
    let positions_offered := extract_section text ((r"Positions Offered").toList) ((r"Stats Offered").toList)
    let stats_offered := extract_section text ((r"Stats Offered").toList) ((r"Positions Needed").toList)
    let positions_needed := extract_section text ((r"Positions Needed").toList) ((r"Stats Needed").toList)
    let stats_needed := extract_stats_needed text
    let comment := extract_comment text
    let players := ((resplit players_raw).map strip).filter (fun p => p ≠ [])
    some
      { team := team
        players_offered := players
        positions_offered := orNoneSpecified positions_offered
        stats_offered := orNoneSpecified stats_offered
        positions_needed := orNoneSpecified positions_needed
        stats_needed := orNoneSpecified stats_needed
        comment := comment }

/-! ### The dingers bot (src/dingers/main.py) -/

/-- Match of the last ten characters against `\(\d{2}:\d{2}:\d{2}\)`. -/
def timestampGroup : Str → Bool
  | ['(', a, b, ':', c, d, ':', e, f, ')'] =>
    a.isDigit && b.isDigit && c.isDigit && d.isDigit && e.isDigit && f.isDigit
  | _ => false

/-- Embedding of the title cleaning in `post_to_discord`:
`re.sub(r"\s*\(\d{2}:\d{2}:\d{2}\)\s*$", "", title).strip()`.
The anchored pattern matches exactly when the title, with trailing whitespace
removed, ends in a ten-character `(HH:MM:SS)` group; the replacement removes
that group together with the whitespace around it, and `.strip()` is applied
to the result either way. -/
def clean_title (title : Str) : Str :=
  let t := stripR title
  if timestampGroup (t.drop (t.length - 10)) then strip (t.take (t.length - 10))
  else strip title

/-- Outcome of one webhook post attempt, as seen by the retry decorator:
success, a connection failure, a timeout, or an HTTP error response carrying
an optional status code (`exception.response` can be absent). -/
inductive AttemptResult where
  | ok
  | connError
  | timeoutErr
  | httpError (status : Option Nat)
deriving DecidableEq, Repr

/-- The retryable status set from `_should_retry_http_error`. -/
def retryableStatusCodes : List Nat := [429, 500, 502, 503, 504]

/-- Embedding of `_should_retry_http_error`: only `HTTPError` instances whose
response carries a status in the retryable set are retryable. -/
def should_retry_http_error : AttemptResult → Bool
  | .httpError (some s) => retryableStatusCodes.contains s
  | .httpError none => false
  | _ => false

/-- The retry predicate configured on `post_to_discord`:
`retry_if_exception_type(ConnectionError) | retry_if_exception_type(Timeout)
| retry_if_exception(_should_retry_http_error)`. -/
def retryCondition : AttemptResult → Bool
  | .connError => true
  | .timeoutErr => true
  | r => should_retry_http_error r

/-- The fixed wait configured on the decorator, in milliseconds (`wait_fixed(0.5)`). -/
def waitFixedMs : Nat := 500

/-- Modelled from the spec and the tenacity configuration in the source
(`stop_after_attempt(3)`, `wait_fixed(0.5)`, `reraise=True`): run attempts
drawn from the oracle `outcomes` (attempt `i` yields `outcomes i`), stopping on
success, on a non-retryable failure, or when the attempt budget is exhausted;
the final failure is re-raised as-is.  Returns the number of attempts
performed, the list of waits (in ms) slept between attempts, and the final
outcome. -/
def runAttempts (outcomes : Nat → AttemptResult) (i : Nat) : Nat → Nat × List Nat × AttemptResult
  | 0 => (0, [], .ok)
  | rem + 1 =>
    match outcomes i with
    | .ok => (1, [], .ok)
    | r =>
      if retryCondition r && rem != 0 then
        ((runAttempts outcomes (i + 1) rem).1 + 1,
          waitFixedMs :: (runAttempts outcomes (i + 1) rem).2.1,
          (runAttempts outcomes (i + 1) rem).2.2)
      else (1, [], r)

/-- The retry wrapper on `post_to_discord`: three total attempts. -/
def post_with_retry (outcomes : Nat → AttemptResult) : Nat × List Nat × AttemptResult :=
  runAttempts outcomes 0 3

/-- The Firestore dedup store: the set of `(date, video document id)` keys
present in the `videos` collection.  The document id is a deterministic
(sha-256) hash of the video URL; since the hash is a stable injective key
derivation, the store is modelled as keyed by the URL itself. -/
abbrev Store := List (Str × Str)

/-- Embedding of `has_posted_video`. -/
def has_posted_video (store : Store) (dateStr videoUrl : Str) : Bool :=
  store.contains (dateStr, videoUrl)

/-- Embedding of `mark_video_posted` (the record payload and TTL are carried
by the external store; the model records the key). -/
def mark_video_posted (store : Store) (dateStr videoUrl : Str) : Store :=
  (dateStr, videoUrl) :: store

/-- Observable effects of one highlight iteration of `main`'s inner loop. -/
inductive DingerEvent where
  | postAttempt (videoUrl : Str)
  | posted (videoUrl : Str)
  | marked (dateStr videoUrl : Str)
deriving DecidableEq, Repr

/-- Embedding of the per-highlight body of `main`'s loop:
check the dedup store, then `post_to_discord` followed by
`mark_video_posted`, with exceptions from the post caught and logged.
`webhookSet` tells whether `DISCORD_DINGERS_WEBHOOK_URL` is configured (when it
is not, `post_to_discord` returns `False` early without posting and without
raising); `postRaises` tells whether the post (after its retries) raises. -/
def handleHighlight (webhookSet postRaises : Bool) (store : Store)
    (dateStr videoUrl : Str) : Store × List DingerEvent :=
  if has_posted_video store dateStr videoUrl then (store, [])
  else if webhookSet = false then
    (mark_video_posted store dateStr videoUrl, [.marked dateStr videoUrl])
  else if postRaises then (store, [.postAttempt videoUrl])
  else
    (mark_video_posted store dateStr videoUrl,
      [.postAttempt videoUrl, .posted videoUrl, .marked dateStr videoUrl])

/-- Home-run phrase test from `extract_hr_highlights`: case-insensitive
containment of `"homer"` or `"home run"` in the title or the description. -/
def isHRText (title description : Str) : Bool :=
  occurs ((r"homer").toList) (lowerStr title) ||
  occurs ((r"home run").toList) (lowerStr title) ||
  occurs ((r"homer").toList) (lowerStr description) ||
  occurs ((r"home run").toList) (lowerStr description)

/-- A highlight entry as built by `extract_hr_highlights`. -/
structure Highlight where
  title : Str
  description : Str
  video_url : Str
  game_id : Nat
deriving DecidableEq, Repr

/-- Python `s.split("\n")`. -/
def splitNLAux (acc : Str) : Str → List Str
  | [] => [acc.reverse]
  | c :: rest => if c = '\n' then acc.reverse :: splitNLAux [] rest else splitNLAux (c :: acc) rest

/-- Python `s.split("\n")`. -/
def splitNL (s : Str) : List Str := splitNLAux [] s

/-- Fuelled `s.split("\n\n")` (split on the two-character separator). -/
def splitDoubleNLFuel : Nat → Str → Str → List Str
  | _, acc, [] => [acc.reverse]
  | 0, acc, s => [acc.reverse ++ s]
  | fuel + 1, acc, c :: rest =>
    if isPre (('\n' : Char) :: ['\n']) (c :: rest) then acc.reverse :: splitDoubleNLFuel fuel [] (rest.drop 1)
    else splitDoubleNLFuel fuel (c :: acc) rest

/-- Python `s.split("\n\n")`. -/
def splitDoubleNL (s : Str) : List Str := splitDoubleNLFuel s.length [] s

/-- Embedding of the per-entry body of the loop in `extract_hr_highlights`:
skip empty entries, skip entries with fewer than three newline-separated
parts, and keep `(title, description, video_url)` exactly when the home-run
phrase test passes. -/
def processHighlightEntry (gameId : Nat) (entry : Str) : Option Highlight :=
  if entry = [] then none
  else
    match splitNL entry with
    | title :: description :: video_url :: _ =>
      if isHRText title description then
        some { title := title, description := description, video_url := video_url, game_id := gameId }
      else none
    | _ => none

/-- Embedding of `extract_hr_highlights` given the highlights text returned by
the stats API for a game. -/
def extract_hr_highlights (gameId : Nat) (highlightsText : Str) : List Highlight :=
  (splitDoubleNL highlightsText).filterMap (processHighlightEntry gameId)

/-! ### A small backtracking matcher for the remaining `re` patterns

A matcher takes the input and returns the list of possible (result, remainder)
pairs in the order a backtracking regex engine tries them; the head of the list
at the leftmost succeeding start position is the Python match. -/

/-- Matchers: all successes, in backtracking priority order. -/
def Mt (α : Type) : Type := Str → List (α × Str)

/-- Succeed without consuming input. -/
def mpure {α : Type} (a : α) : Mt α := fun s => [(a, s)]

/-- Sequencing with backtracking across all candidate splits. -/
def mbind {α β : Type} (m : Mt α) (f : α → Mt β) : Mt β :=
  fun s => (m s).flatMap (fun p => f p.1 p.2)

/-- A literal. -/
def mlit (l : Str) : Mt Unit :=
  fun s => if isPre l s then [((), s.drop l.length)] else []

/-- All splits of `s` into a prefix of characters satisfying `p` and the
remainder, shortest prefix first. -/
def prefixRuns (p : Char → Bool) : Str → List (Str × Str)
  | [] => [([], [])]
  | c :: rest =>
    ([], c :: rest) :: (if p c then (prefixRuns p rest).map (fun q => (c :: q.1, q.2)) else [])

/-- Lazy `p*`. -/
def mstarLazy (p : Char → Bool) : Mt Str := fun s => prefixRuns p s

/-- Greedy `p*`. -/
def mstarGreedy (p : Char → Bool) : Mt Str := fun s => (prefixRuns p s).reverse

/-- Lazy `p+`. -/
def mplusLazy (p : Char → Bool) : Mt Str := fun s => (prefixRuns p s).drop 1

/-- Greedy `p+`. -/
def mplusGreedy (p : Char → Bool) : Mt Str := fun s => ((prefixRuns p s).drop 1).reverse

/-- End-of-input anchor `$`. -/
def mEnd : Mt Unit := fun s => if s = [] then [((), [])] else []

/-- Ordered alternation. -/
def malt {α : Type} (m₁ m₂ : Mt α) : Mt α := fun s => m₁ s ++ m₂ s

/-- Leftmost search: try the matcher at each start position, left to right,
and take the first (highest-priority) success. -/
def msearch {α : Type} (m : Mt α) : Str → Option α
  | [] =>
    match m [] with
    | (a, _) :: _ => some a
    | [] => none
  | c :: rest =>
    match m (c :: rest) with
    | (a, _) :: _ => some a
    | [] => msearch m rest

/-- Python `\w` (ASCII range). -/
def isWordChar (c : Char) : Bool := c.isAlphanum || c = '_'

/-- The character class `[\w\s\-']` from the claim pattern. -/
def isClaimNameChar (c : Char) : Bool :=
  isWordChar c || c.isWhitespace || c = '-' || c = '\''

/-- The pattern of `_parse_claim`:
`\*(.+?)\*\s*\n\s*([\w\s\-']+)\s+([A-Z]+)\s*-\s*([\w,]+.*)`. -/
def claimPattern : Mt (Str × Str × Str × Str) :=
  mbind (mlit ['*']) (fun _ =>
  mbind (mplusLazy (fun c => c != '\n')) (fun g1 =>
  mbind (mlit ['*']) (fun _ =>
  mbind (mstarGreedy Char.isWhitespace) (fun _ =>
  mbind (mlit ['\n']) (fun _ =>
  mbind (mstarGreedy Char.isWhitespace) (fun _ =>
  mbind (mplusGreedy isClaimNameChar) (fun g2 =>
  mbind (mplusGreedy Char.isWhitespace) (fun _ =>
  mbind (mplusGreedy (fun c => decide ('A' ≤ c) && decide (c ≤ 'Z'))) (fun g3 =>
  mbind (mstarGreedy Char.isWhitespace) (fun _ =>
  mbind (mlit ['-']) (fun _ =>
  mbind (mstarGreedy Char.isWhitespace) (fun _ =>
  mbind (mplusGreedy (fun c => isWordChar c || c = ',')) (fun g4a =>
  mbind (mstarGreedy (fun c => c != '\n')) (fun g4b =>
  mpure (g1, g2, g3, g4a ++ g4b)))))))))))))))

/-- Result of `_parse_claim`: a structured dict or the raw-text fallback. -/
inductive ClaimResult where
  | structured (team player details : Str)
  | raw (text : Str)
deriving DecidableEq, Repr

/-- Embedding of `_parse_claim`. -/
def parse_claim (text : Str) : ClaimResult :=
  match msearch claimPattern text with
  | some (g1, g2, g3, g4) => .structured (strip g1) (strip g2 ++ ' ' :: strip g3) (strip g4)
  | none => .raw text

/-- The pattern of `_parse_drop` (with `re.DOTALL`):
`re-entered the\s+player pool as free agents.*?:\s*(.*?)(?:Note that|Thanks|$)`. -/
def dropPattern : Mt Str :=
  mbind (mlit ((r"re-entered the").toList)) (fun _ =>
  mbind (mplusGreedy Char.isWhitespace) (fun _ =>
  mbind (mlit ((r"player pool as free agents").toList)) (fun _ =>
  mbind (mstarLazy (fun _ => true)) (fun _ =>
  mbind (mlit [':']) (fun _ =>
  mbind (mstarGreedy Char.isWhitespace) (fun _ =>
  mbind (mstarLazy (fun _ => true)) (fun g =>
  mbind (malt (mlit ((r"Note that").toList)) (malt (mlit ((r"Thanks").toList)) mEnd)) (fun _ =>
  mpure g))))))))

/-- Result of `_parse_drop`. -/
inductive DropResult where
  | players (ps : List Str)
  | raw (text : Str)
deriving DecidableEq, Repr

/-- Embedding of `_parse_drop`. -/
def parse_drop (text : Str) : DropResult :=
  match msearch dropPattern text with
  | some g => .players (((splitNL (strip g)).map strip).filter (fun p => p ≠ []))
  | none => .raw text

/-- The pattern of `_parse_draft` (with `re.DOTALL`):
`Round\s+(\d+)\s*,\s*Pick\s+(\d+)\s*:\s*(.+?)\s+was picked by the team\s+(.+?)\s*\.`. -/
def draftPattern : Mt (Str × Str × Str × Str) :=
  mbind (mlit ((r"Round").toList)) (fun _ =>
  mbind (mplusGreedy Char.isWhitespace) (fun _ =>
  mbind (mplusGreedy Char.isDigit) (fun g1 =>
  mbind (mstarGreedy Char.isWhitespace) (fun _ =>
  mbind (mlit [',']) (fun _ =>
  mbind (mstarGreedy Char.isWhitespace) (fun _ =>
  mbind (mlit ((r"Pick").toList)) (fun _ =>
  mbind (mplusGreedy Char.isWhitespace) (fun _ =>
  mbind (mplusGreedy Char.isDigit) (fun g2 =>
  mbind (mstarGreedy Char.isWhitespace) (fun _ =>
  mbind (mlit [':']) (fun _ =>
  mbind (mstarGreedy Char.isWhitespace) (fun _ =>
  mbind (mplusLazy (fun _ => true)) (fun g3 =>
  mbind (mplusGreedy Char.isWhitespace) (fun _ =>
  mbind (mlit ((r"was picked by the team").toList)) (fun _ =>
  mbind (mplusGreedy Char.isWhitespace) (fun _ =>
  mbind (mplusLazy (fun _ => true)) (fun g4 =>
  mbind (mstarGreedy Char.isWhitespace) (fun _ =>
  mbind (mlit ['.']) (fun _ =>
  mpure (g1, g2, g3, g4))))))))))))))))))))

/-- Collapse every maximal whitespace run to a single space:
`re.sub(r"\s+", " ", s)`. -/
def collapseWsRuns : Str → Str
  | [] => []
  | [c] => if c.isWhitespace then [' '] else [c]
  | c :: d :: rest =>
    if c.isWhitespace && d.isWhitespace then collapseWsRuns (d :: rest)
    else (if c.isWhitespace then ' ' else c) :: collapseWsRuns (d :: rest)

/-- Whitespace normalisation applied to each captured draft field:
`re.sub(r"\s+", " ", group.strip())`. -/
def normWs (s : Str) : Str := collapseWsRuns (strip s)

/-- Result of `_parse_draft`. -/
inductive DraftResult where
  | structured (round pick player team : Str)
  | raw (text : Str)
deriving DecidableEq, Repr

/-- Embedding of `_parse_draft`. -/
def parse_draft (text : Str) : DraftResult :=
  match msearch draftPattern text with
  | some (g1, g2, g3, g4) => .structured (normWs g1) (normWs g2) (normWs g3) (normWs g4)
  | none => .raw text

/-! ### HTML trees, `_extract_text_content` and `_parse_trade`

The lxml tokenizer is external; a parsed document is modelled as a tree of
elements (carrying their CSS classes), `<br>` tags, and text nodes.  The
BeautifulSoup operations used by the source — `find(class_=...)` (first match
in document order), `replace_with` on every descendant `<br>`, and
`get_text(separator)` (all descendant strings joined by the separator) — are
embedded structurally. -/

mutual
inductive Node where
  | text (s : Str)
  | br
  | elem (classes : List Str) (children : NodeList)
inductive NodeList where
  | nil
  | cons (head : Node) (tail : NodeList)
end

mutual
/-- BeautifulSoup `find(class_=cls)`: first element in document order whose
class list contains `cls`. -/
def findClass (cls : Str) : Node → Option Node
  | .text _ => none
  | .br => none
  | .elem classes children =>
    if cls ∈ classes then some (.elem classes children) else findClassL cls children
/-- The list version of `findClass`. -/
def findClassL (cls : Str) : NodeList → Option Node
  | .nil => none
  | .cons n ns =>
    match findClass cls n with
    | some r => some r
    | none => findClassL cls ns
end

mutual
/-- Replace every descendant `<br>` by a newline text node
(`for br in div.find_all("br"): br.replace_with("\n")`). -/
def replaceBr : Node → Node
  | .text s => .text s
  | .br => .text ['\n']
  | .elem cs ch => .elem cs (replaceBrL ch)
/-- The list version of `replaceBr`. -/
def replaceBrL : NodeList → NodeList
  | .nil => .nil
  | .cons n ns => .cons (replaceBr n) (replaceBrL ns)
end

mutual
/-- The descendant text strings of a node in document order (`<br>` tags have
no string content). -/
def fragments : Node → List Str
  | .text s => [s]
  | .br => []
  | .elem _ ch => fragmentsL ch
/-- The list version of `fragments`. -/
def fragmentsL : NodeList → List Str
  | .nil => []
  | .cons n ns => fragments n ++ fragmentsL ns
end

/-- BeautifulSoup `get_text(separator=sep)`: join all descendant strings. -/
def get_text (sep : Str) (n : Node) : Str := List.intercalate sep (fragments n)

/-- The style marker of the Fantrax content container. -/
def darkmodeText : Str := (r"darkmode-text").toList

/-- Embedding of `_extract_text_content`: find the `darkmode-text` container,
replace `<br>` tags by newlines and take its text joined by spaces; fall back
to the whole document's text when the container is absent. -/
def extract_text_content (doc : Node) : Str :=
  match findClass darkmodeText doc with
  | some contentDiv => strip (get_text [' '] (replaceBr contentDiv))
  | none => strip (get_text [' '] doc)

/-- Collapse every maximal run of spaces to one space: `re.sub(r" +", " ", s)`. -/
def collapseSpaceRuns : Str → Str
  | [] => []
  | [c] => [c]
  | c :: d :: rest =>
    if c = ' ' && d = ' ' then collapseSpaceRuns (d :: rest)
    else c :: collapseSpaceRuns (d :: rest)

/-- The blank-line collapsing loop of `_parse_trade`: drop an empty line that
immediately follows an empty line, keeping single blank lines. -/
def collapseBlankLines (prevEmpty : Bool) : List Str → List Str
  | [] => []
  | line :: rest =>
    if line = [] then
      if prevEmpty then collapseBlankLines true rest
      else [] :: collapseBlankLines true rest
    else line :: collapseBlankLines false rest

/-- The boilerplate-link pattern literal of `_parse_trade`. -/
def clickHereLit : Str := (r"You can click here to go to").toList

/-- Fuelled embedding of `re.sub(r"You can click here to go to.*?\n", "", s)`:
remove every non-overlapping occurrence of the literal up to and including the
next newline, resuming the scan after each removal. -/
def removeClickFuel : Nat → Str → Str
  | _, [] => []
  | 0, s => s
  | fuel + 1, c :: rest =>
    if isPre clickHereLit (c :: rest) then
      match splitFirst ['\n'] ((c :: rest).drop clickHereLit.length) with
      | some (_, after) => removeClickFuel fuel after
      | none => c :: removeClickFuel fuel rest
    else c :: removeClickFuel fuel rest

/-- Embedding of `re.sub(r"You can click here to go to.*?\n", "", s)`. -/
def removeClickHere (s : Str) : Str := removeClickFuel s.length s

/-- Result of `_parse_trade` (the dict `{"details": ...}`). -/
structure TradeResult where
  details : Str
deriving DecidableEq, Repr

/-- Embedding of `_parse_trade`: work on the HTML container directly, join its
strings with no separator, normalise each line's spaces, collapse consecutive
blank lines, then extract between `"has been executed."` and
`"Note that you can adjust"` and drop the click-here boilerplate. -/
def parse_trade (html : Node) : Option TradeResult :=
  match findClass darkmodeText html with
  | none => none
  | some contentDiv =>
    let c2 := replaceBr contentDiv
    let fullText := get_text [] c2
    let lines := (splitNL fullText).map (fun line => collapseSpaceRuns (strip line))
    let fullText2 := List.intercalate ['\n'] (collapseBlankLines false lines)
    match splitFirst ((r"has been executed.").toList) fullText2 with
    | none => none
    | some (_, rest) =>
      match splitFirst ((r"Note that you can adjust").toList) rest with
      | none => none
      | some (mid, _) => some { details := strip (removeClickHere (strip mid)) }

/-! ### Message formatting and the inbox processing loop (`process_email`) -/

/-- The per-type parse result fed to the formatter (`data` in the source;
`noData` is Python `None`). -/
inductive TxData where
  | blockData (tb : TradeBlock)
  | tradeData (td : TradeResult)
  | claimData (c : ClaimResult)
  | dropData (d : DropResult)
  | draftData (d : DraftResult)
  | noData
deriving DecidableEq, Repr

/-- The `EMOJI` dict with the `"📋"` fallback. -/
def emojiFor (t : String) : Str :=
  if t = CLAIM then (r"✅").toList
  else if t = DROP then (r"🚫").toList
  else if t = TRADE then (r"🔄").toList
  else if t = BLOCK then (r"🟦").toList
  else if t = DRAFT then (r"🍺").toList
  else (r"📋").toList

/-- The `titles` dict with the generic fallback. -/
def titleFor (t : String) : Str :=
  if t = CLAIM then (r"A player has been claimed in ").toList ++ LEAGUE_NAME ++ ['!']
  else if t = DROP then (r"A player has been dropped in ").toList ++ LEAGUE_NAME ++ ['!']
  else if t = TRADE then (r"A trade has been executed in ").toList ++ LEAGUE_NAME ++ ['!']
  else if t = BLOCK then (r"A trade block has been updated in ").toList ++ LEAGUE_NAME ++ ['!']
  else if t = DRAFT then (r"Draft pick made in ").toList ++ LEAGUE_NAME ++ ['!']
  else (r"A transaction occurred!").toList

/-- Embedding of `_format_trade_block_message`. -/
def format_trade_block_message (d : TradeBlock) : Str :=
  let players_list :=
    if d.players_offered = [] then (r"(none)").toList
    else List.intercalate ['\n'] d.players_offered
  let msg :=
    (r"**").toList ++ d.team ++ (r"** updated their trade block").toList ++ ['\n', '\n'] ++
    (r"**Players Offered:**").toList ++ ['\n'] ++ players_list ++ ['\n', '\n'] ++
    (r"**Positions Offered:** ").toList ++ d.positions_offered ++ ['\n'] ++
    (r"**Stats Offered:** ").toList ++ d.stats_offered ++ ['\n'] ++
    (r"**Positions Needed:** ").toList ++ d.positions_needed ++ ['\n'] ++
    (r"**Stats Needed:** ").toList ++ d.stats_needed ++ ['\n'] ++
    (if d.comment ≠ [] then (r"**Comment:** ").toList ++ d.comment ++ ['\n'] else [])
  strip msg

/-- Embedding of `_format_discord_message`. -/
def format_discord_message (t : String) (d : TxData) : Str :=
  let emoji := emojiFor t
  let title := titleFor t
  let details : Str :=
    if t = BLOCK then
      match d with
      | .blockData tb => format_trade_block_message tb
      | _ => []
    else if t = TRADE then
      match d with
      | .tradeData td => td.details
      | _ => []
    else if t = CLAIM then
      match d with
      | .claimData (ClaimResult.structured team player _) =>
        (r"**").toList ++ team ++ (r"** claimed ").toList ++ player
      | .claimData (ClaimResult.raw rw) => rw
      | _ => []
    else if t = DROP then
      match d with
      | .dropData (DropResult.players ps) =>
        (r"Players dropped to waivers:").toList ++ ['\n'] ++ List.intercalate ['\n'] ps
      | .dropData (DropResult.raw rw) => rw
      | _ => []
    else if t = DRAFT then
      match d with
      | .draftData (DraftResult.structured round pick player team) =>
        (r"**").toList ++ team ++ (r"** drafted **").toList ++ player ++ (r"**").toList ++
        ['\n'] ++ (r"Round ").toList ++ round ++ (r", Pick ").toList ++ pick
      | .draftData (DraftResult.raw rw) => rw
      | _ => []
    else []
  emoji ++ (r" **").toList ++ title ++ (r"**").toList ++ ['\n', '\n'] ++ details ++ ['\n', '\n']

/-- A MIME part of a Gmail message.  The base64 transport decoding and the
lxml HTML parse are external; a part's body is modelled as the decoded,
parsed document (`none` for an absent or empty body). -/
structure MessagePart where
  mimeType : Str
  data : Option Node

/-- A Gmail message payload. -/
structure MessagePayload where
  mimeType : Str
  data : Option Node
  parts : List MessagePart
  headers : List (Str × Str)

/-- A fetched Gmail message. -/
structure GmailMessage where
  id : Str
  payload : MessagePayload

/-- The parts scan of `_extract_html_body`: the first `text/html` part with a
nonempty body. -/
def firstHtmlPart : List MessagePart → Option Node
  | [] => none
  | part :: rest =>
    if part.mimeType = (r"text/html").toList then
      match part.data with
      | some d => some d
      | none => firstHtmlPart rest
    else firstHtmlPart rest

/-- Embedding of `_extract_html_body`: top-level `text/html` body first, else
the first `text/html` part. -/
def extract_html_body (p : MessagePayload) : Option Node :=
  if p.mimeType = (r"text/html").toList then
    match p.data with
    | some d => some d
    | none => firstHtmlPart p.parts
  else firstHtmlPart p.parts

/-- Subject extraction in `_process_single_message`: the first header whose
lower-cased name is `"subject"`, defaulting to `""`. -/
def getSubject (headers : List (Str × Str)) : Str :=
  match headers.find? (fun h => decide (lowerStr h.1 = (r"subject").toList)) with
  | some h => h.2
  | none => []

/-- Observable effects of the inbox loop: webhook posts and archive
modifications (`removeLabelIds: ["INBOX"]`). -/
inductive TxEvent where
  | post (url : Str) (content : Str)
  | archive (id : Str)
deriving DecidableEq, Repr

/-- Embedding of `_process_single_message` on a fetched message: classify the
subject, extract the HTML body, parse by type, format, and post to the routed
webhook.  `postOk` is the network oracle for the Discord post (`False` means
`raise_for_status` raises); the `Except` layer carries a raised exception to
the caller's per-message handler.  `ok none` is the source's `return None`
(skipped message). -/
def process_single_message (msg : GmailMessage) (postOk : Bool)
    (txUrl blockUrl : Option Str) : List TxEvent × Except Unit (Option (Str × String)) :=
  let subject := getSubject msg.payload.headers
  let t := detect_transaction_type subject
  if t = UNKNOWN then ([], .ok none)
  else
    match extract_html_body msg.payload with
    | none => ([], .ok none)
    | some htmlBody =>
      let data : TxData :=
        if t = BLOCK then
          match parse_trade_block (extract_text_content htmlBody) with
          | some tb => .blockData tb
          | none => .noData
        else if t = TRADE then
          match parse_trade htmlBody with
          | some td => .tradeData td
          | none => .noData
        else if t = CLAIM then .claimData (parse_claim (extract_text_content htmlBody))
        else if t = DROP then .dropData (parse_drop (extract_text_content htmlBody))
        else if t = DRAFT then .draftData (parse_draft (extract_text_content htmlBody))
        else .noData
      let message := format_discord_message t data
      let webhookUrl := if t = BLOCK then blockUrl else txUrl
      match webhookUrl with
      | some url =>
        if postOk then ([.post url message], .ok (some (msg.id, t)))
        else ([.post url message], .error ())
      | none => ([], .ok none)

/-- Embedding of one iteration of the message loop in `process_email`: fetch
(`fetch id = none` models a raised exception), process, and archive — in the
`try` body on success and in the `except` handler on failure, so the archive
modification is issued either way. -/
def handleMessage (fetch : Str → Option GmailMessage) (postOk : Str → Bool)
    (txUrl blockUrl : Option Str) (id : Str) : List TxEvent × Option (Str × String) :=
  match fetch id with
  | none => ([.archive id], none)
  | some msg =>
    ((process_single_message msg (postOk id) txUrl blockUrl).1 ++ [.archive id],
      match (process_single_message msg (postOk id) txUrl blockUrl).2 with
      | .ok res => res
      | .error _ => none)

/-- The message loop of `process_email` over the listed message ids,
accumulating the observable events and the `processed` result list. -/
def processMessages (fetch : Str → Option GmailMessage) (postOk : Str → Bool)
    (txUrl blockUrl : Option Str) : List Str → List TxEvent × List (Str × String)
  | [] => ([], [])
  | id :: rest =>
    ((handleMessage fetch postOk txUrl blockUrl id).1 ++
        (processMessages fetch postOk txUrl blockUrl rest).1,
      match (handleMessage fetch postOk txUrl blockUrl id).2 with
      | some x => x :: (processMessages fetch postOk txUrl blockUrl rest).2
      | none => (processMessages fetch postOk txUrl blockUrl rest).2)

/-- The `maxResults` parameter of the Gmail listing call. -/
def listMaxResults : Nat := 50

/-- Embedding of `process_email`'s listing and loop: the Gmail list call
returns at most `maxResults=50` of the unarchived labelled messages, and the
loop runs over exactly that listing. -/
def process_email (fetch : Str → Option GmailMessage) (postOk : Str → Bool)
    (txUrl blockUrl : Option Str) (inbox : List Str) : List TxEvent × List (Str × String) :=
  processMessages fetch postOk txUrl blockUrl (inbox.take listMaxResults)

/-! ### Statement-level material for the trade-block round trip -/

/-- Boolean test: no newline character occurs in `p`. -/
def noNLin (p : Str) : Bool := p.all (fun c => c != '\n')

/-- Boolean test: no two adjacent characters of `p` are both whitespace. -/
def noAdjWs : Str → Bool
  | c :: d :: rest => (!(c.isWhitespace && d.isWhitespace)) && noAdjWs (d :: rest)
  | _ => true

/-- Boolean test: the first character, if any, is not whitespace. -/
def headNotWs (p : Str) : Bool :=
  match p.head? with
  | some c => !c.isWhitespace
  | none => true

/-- Boolean test: the last character, if any, is not whitespace. -/
def lastNotWs (p : Str) : Bool :=
  match p.getLast? with
  | some c => !c.isWhitespace
  | none => true

/-- A well-formed player name as it appears on its own line of the
`Players Offered` section: nonempty, free of newlines, free of internal
whitespace runs of length two or more, and not starting or ending with
whitespace. -/
def goodName (p : Str) : Bool :=
  (!p.isEmpty) && noNLin p && noAdjWs p && headNotWs p && lastNotWs p

/-- The `Players Offered:` label with its colon. -/
def lblPlayersC : Str := (r"Players Offered:").toList

/-- The `Positions Offered:` label with its colon. -/
def lblPosC : Str := (r"Positions Offered:").toList

/-- The `Stats Offered:` label with its colon. -/
def lblStatsC : Str := (r"Stats Offered:").toList

/-- The `Positions Needed:` label with its colon. -/
def lblPosNeedC : Str := (r"Positions Needed:").toList

/-- The `Stats Needed:` label with its colon. -/
def lblStatsNeedC : Str := (r"Stats Needed:").toList

/-- The `Comment:` label with its colon. -/
def lblCommentC : Str := (r"Comment:").toList

/-- The team line of the reduced trade-block email text: the league name
prefix is joined to the team `Grand Salamis` by `" - "`, as in the source's
own example. -/
def teamLine : Str :=
  (r"Fantrax - The Don Orsillo Open - Grand Salamis has made changes to the Trade Block").toList

/-- The trailing boilerplate line of the body. -/
def noteTail : Str :=
  (r"Note that you can make changes to your Trade Block at any time.").toList

/-- The text following the `Comment:` label when the comment is blank. -/
def tailAfterComment : Str := '\n' :: noteTail

/-- The text following the `Stats Needed:` label when that section is blank. -/
def tailAfterStatsNeed : Str := '\n' :: (lblCommentC ++ tailAfterComment)

/-- The text following the `Positions Needed:` label when that section is blank. -/
def tailAfterPosNeed : Str := '\n' :: (lblStatsNeedC ++ tailAfterStatsNeed)

/-- The text following the `Stats Offered:` label when that section is blank. -/
def tailAfterStats : Str := '\n' :: (lblPosNeedC ++ tailAfterPosNeed)

/-- The text following the `Positions Offered:` label when that section is blank. -/
def tailAfterPos : Str := '\n' :: (lblStatsC ++ tailAfterStats)

/-- Everything after the players section when the other five sections are
blank: each remaining label on its own line, then the trailing boilerplate. -/
def bodyTail : Str := '\n' :: (lblPosC ++ tailAfterPos)

/-- The newline-joined players block (one name per line). -/
def joined : List Str → Str
  | [] => []
  | [p] => p
  | p :: rest => p ++ ('\n' :: joined rest)

/-- A reduced trade-block email body with players block `P` and every other
section blank. -/
def mkBodyP (P : Str) : Str :=
  teamLine ++ ('\n' :: (lblPlayersC ++ ('\n' :: (P ++ bodyTail))))

/-- The text preceding the `Positions Offered:` label in such a body. -/
def prePosOff (P : Str) : Str :=
  teamLine ++ ('\n' :: (lblPlayersC ++ ('\n' :: (P ++ ['\n']))))

/-- The text preceding the `Stats Offered:` label in such a body. -/
def preStatsOff (P : Str) : Str :=
  teamLine ++ ('\n' :: (lblPlayersC ++ ('\n' :: (P ++ ('\n' :: (lblPosC ++ ['\n']))))))

/-- The text preceding the `Positions Needed:` label in such a body. -/
def prePosNeed (P : Str) : Str :=
  teamLine ++ ('\n' :: (lblPlayersC ++ ('\n' :: (P ++
    ('\n' :: (lblPosC ++ ('\n' :: (lblStatsC ++ ['\n']))))))))

/-- The text preceding the `Stats Needed:` label in such a body. -/
def preStatsNeed (P : Str) : Str :=
  teamLine ++ ('\n' :: (lblPlayersC ++ ('\n' :: (P ++
    ('\n' :: (lblPosC ++ ('\n' :: (lblStatsC ++ ('\n' :: (lblPosNeedC ++ ['\n']))))))))))

/-- The text preceding the `Comment:` label in such a body. -/
def preComment (P : Str) : Str :=
  teamLine ++ ('\n' :: (lblPlayersC ++ ('\n' :: (P ++
    ('\n' :: (lblPosC ++ ('\n' :: (lblStatsC ++
      ('\n' :: (lblPosNeedC ++ ('\n' :: (lblStatsNeedC ++ ['\n']))))))))))))

/-- The regex group captured by the team search on such a body. -/
def teamGroup : Str := (r"The Don Orsillo Open - Grand Salamis").toList

/-- A reduced trade-block email body whose `Players Offered` section lists
the given names, one per line, with every other section blank. -/
def mkBlankBody (ps : List Str) : Str :=
  teamLine ++ ('\n' :: (lblPlayersC ++ ('\n' :: (joined ps ++ bodyTail))))

/-- The six player names of the repository's own round-trip test. -/
def testPlayers : List Str :=
  [(r"Contreras, Willson").toList, (r"Turner, Trea").toList, (r"Smith, Cam").toList,
   (r"Wallner, Matt").toList, (r"Miller, Bryce").toList, (r"Pfaadt, Brandon").toList]

/-- Boolean test used by the blank-line-collapsing claims: no two adjacent
lines of the list are both empty. -/
def noAdjBlank : List Str → Bool
  | l :: l' :: rest => (!(l.isEmpty && l'.isEmpty)) && noAdjBlank (l' :: rest)
  | _ => true

/-- A concrete document whose `darkmode-text` container holds a text node
with two consecutive blank lines. -/
def blankLinesDoc : Node :=
  .elem [] (.cons (.elem [darkmodeText]
    (.cons (.text (('a' : Char) :: '\n' :: '\n' :: '\n' :: ['b'])) .nil)) .nil)

mutual
/-- Number of `<br>` tags in a node. -/
def countBr : Node → Nat
  | .text _ => 0
  | .br => 1
  | .elem _ ch => countBrL ch
/-- The list version of `countBr`. -/
def countBrL : NodeList → Nat
  | .nil => 0
  | .cons n ns => countBr n + countBrL ns
end

/-- Boolean test: the first line, if any, is not blank. -/
def noLeadBlank : List Str → Bool
  | [] => true
  | l :: _ => !l.isEmpty

/-! ## Theorems -/

/-- Appending a nonempty line keeps the no-adjacent-blank invariant when the
tail has no leading blank. -/
theorem noAdjBlank_cons (l : Str) (X : List Str) (hX : noAdjBlank X = true)
    (h : l.isEmpty = false ∨ noLeadBlank X = true) : noAdjBlank (l :: X) = true := by
  cases X with
  | nil => simp [noAdjBlank]
  | cons x xs =>
    simp only [noAdjBlank, Bool.and_eq_true]
    refine ⟨?_, hX⟩
    rcases h with h | h
    · simp [h]
    · simp only [noLeadBlank, Bool.not_eq_true'] at h
      simp [h]

theorem noAdjBlank_tail (l : Str) (X : List Str) (h : noAdjBlank (l :: X) = true) :
    noAdjBlank X = true := by
  cases X with
  | nil => simp [noAdjBlank]
  | cons x xs =>
    simp only [noAdjBlank, Bool.and_eq_true] at h
    exact h.2

theorem noAdjBlank_head (X : List Str) (h : noAdjBlank (([] : Str) :: X) = true) :
    noLeadBlank X = true := by
  cases X with
  | nil => simp [noLeadBlank]
  | cons x xs =>
    simp only [noAdjBlank, Bool.and_eq_true] at h
    simpa [noLeadBlank] using h.1

theorem collapse_true_noLead : ∀ lines : List Str,
    noLeadBlank (collapseBlankLines true lines) = true := by
  intro lines
  induction lines with
  | nil => simp [collapseBlankLines, noLeadBlank]
  | cons line rest ih =>
    by_cases h : line = []
    · simpa [collapseBlankLines, h] using ih
    · simp [collapseBlankLines, h, noLeadBlank, List.isEmpty_iff]

theorem collapse_noAdjBlank : ∀ (lines : List Str) (b : Bool),
    noAdjBlank (collapseBlankLines b lines) = true := by
  intro lines
  induction lines with
  | nil => intro b; simp [collapseBlankLines, noAdjBlank]
  | cons line rest ih =>
    intro b
    by_cases h : line = []
    · subst h
      cases b with
      | true => simpa [collapseBlankLines] using ih true
      | false =>
        simp only [collapseBlankLines, if_pos rfl, Bool.false_eq_true, if_neg (by simp : ¬False)]
        exact noAdjBlank_cons [] _ (ih true) (Or.inr (collapse_true_noLead rest))
    · simp only [collapseBlankLines, if_neg h]
      exact noAdjBlank_cons line _ (ih false) (Or.inl (by simp [List.isEmpty_iff, h]))

theorem collapse_id : ∀ (lines : List Str) (b : Bool),
    noAdjBlank lines = true → (b = true → noLeadBlank lines = true) →
    collapseBlankLines b lines = lines := by
  intro lines
  induction lines with
  | nil => intro b _ _; simp [collapseBlankLines]
  | cons line rest ih =>
    intro b hadj hlead
    by_cases h : line = []
    · subst h
      cases b with
      | true =>
        have := hlead rfl
        simp [noLeadBlank] at this
      | false =>
        have hrest : collapseBlankLines true rest = rest :=
          ih true (noAdjBlank_tail _ _ hadj) (fun _ => noAdjBlank_head _ hadj)
        simp [collapseBlankLines, hrest]
    · have hrest : collapseBlankLines false rest = rest :=
        ih false (noAdjBlank_tail _ _ hadj) (by simp)
      simp [collapseBlankLines, h, hrest]

theorem collapse_filter : ∀ (lines : List Str) (b : Bool),
    (collapseBlankLines b lines).filter (fun l => !l.isEmpty) =
      lines.filter (fun l => !l.isEmpty) := by
  intro lines
  induction lines with
  | nil => intro b; simp [collapseBlankLines]
  | cons line rest ih =>
    intro b
    by_cases h : line = []
    · subst h
      cases b with
      | true => simpa [collapseBlankLines] using ih true
      | false => simpa [collapseBlankLines] using ih true
    · simp [collapseBlankLines, h, List.filter_cons, List.isEmpty_iff, ih false]
mutual
theorem countNL_replaceBr : ∀ n : Node,
    ((fragments (replaceBr n)).map (fun s => s.count '\n')).sum =
      countBr n + ((fragments n).map (fun s => s.count '\n')).sum
  | .text s => by simp [replaceBr, fragments, countBr]
  | .br => by simp [replaceBr, fragments, countBr]
  | .elem cs ch => by
    simp only [replaceBr, fragments, countBr]
    exact countNL_replaceBrL ch
theorem countNL_replaceBrL : ∀ ns : NodeList,
    ((fragmentsL (replaceBrL ns)).map (fun s => s.count '\n')).sum =
      countBrL ns + ((fragmentsL ns).map (fun s => s.count '\n')).sum
  | .nil => by simp [replaceBrL, fragmentsL, countBrL]
  | .cons n ns => by
    simp only [replaceBrL, fragmentsL, countBrL, List.map_append, List.sum_append]
    have h1 := countNL_replaceBr n
    have h2 := countNL_replaceBrL ns
    omega
end

/-- C5 counterexample: the secondary extractor does not collapse consecutive
blank lines — on a document whose marker container holds the text
`"a\n\n\nb"` the extracted text still has two adjacent blank lines. -/
theorem claim_C5_counterexample :
    splitNL (extract_text_content blankLinesDoc) = [['a'], [], [], ['b']] ∧
    noAdjBlank (splitNL (extract_text_content blankLinesDoc)) = false := by
  decide

/-- C5 (amended): the secondary body extractor locates the content container
by its `darkmode-text` style marker, converts `<br>` tags to newline
characters (every `<br>` contributes exactly one newline to the text), joins
the text with a space separator and strips it, and falls back to extracting
all text of the whole document when the marker is absent; the collapsing of
consecutive blank lines to a single blank line — preserving single blank
lines and every non-blank line — is performed by the trade parser's own
normalisation (`collapseBlankLines`), not by the secondary extractor. -/
theorem claim_C5_text_extraction :
    (∀ doc : Node, findClass darkmodeText doc = none →
      extract_text_content doc = strip (get_text [' '] doc)) ∧
    (∀ doc c : Node, findClass darkmodeText doc = some c →
      extract_text_content doc = strip (get_text [' '] (replaceBr c))) ∧
    (∀ n : Node, ((fragments (replaceBr n)).map (fun s => s.count '\n')).sum =
      countBr n + ((fragments n).map (fun s => s.count '\n')).sum) ∧
    (∀ (lines : List Str) (b : Bool), noAdjBlank (collapseBlankLines b lines) = true) ∧
    (∀ lines : List Str, noAdjBlank lines = true → collapseBlankLines false lines = lines) ∧
    (∀ (lines : List Str) (b : Bool),
      (collapseBlankLines b lines).filter (fun l => !l.isEmpty) =
        lines.filter (fun l => !l.isEmpty)) := by
  refine ⟨?_, ?_, countNL_replaceBr, collapse_noAdjBlank,
    fun lines h => collapse_id lines false h (by simp), collapse_filter⟩
  · intro doc h
    unfold extract_text_content
    rw [h]
  · intro doc c h
    unfold extract_text_content
    rw [h]

/-- Witness for C5: the fallback fires on a marker-free document, the
container equation fires on the counterexample document, and the collapse is
the identity on a list with a single blank line. -/
theorem claim_C5_witness :
    extract_text_content (Node.text ((r"plain").toList)) =
      strip (get_text [' '] (Node.text ((r"plain").toList))) ∧
    collapseBlankLines false [['a'], [], ['b']] = [['a'], [], ['b']] := by
  exact ⟨claim_C5_text_extraction.1 _ rfl,
    claim_C5_text_extraction.2.2.2.2.1 _ (by decide)⟩

/-- C2: the transaction classifier is total and returns the first matching
variant in the fixed priority order of case-insensitive substring tests —
`"player(s) claimed"` yields Claim, else `"free agents added to pool"` yields
Drop, else `"trade executed"` yields Trade, else `"trade block changed"`
yields Block, else `"draft pick made"` yields Draft, else Unknown; in
particular `"Player(s) Claimed - Team X"` yields Claim,
`"TRADE BLOCK CHANGED for Team Y"` yields Block, and a subject containing
none of the patterns yields Unknown. -/
theorem claim_C2_subject_classification :
    (∀ s : Str, occurs patClaim (lowerStr s) = true →
      detect_transaction_type s = CLAIM) ∧
    (∀ s : Str, occurs patClaim (lowerStr s) = false →
      occurs patDrop (lowerStr s) = true →
      detect_transaction_type s = DROP) ∧
    (∀ s : Str, occurs patClaim (lowerStr s) = false →
      occurs patDrop (lowerStr s) = false →
      occurs patTrade (lowerStr s) = true →
      detect_transaction_type s = TRADE) ∧
    (∀ s : Str, occurs patClaim (lowerStr s) = false →
      occurs patDrop (lowerStr s) = false →
      occurs patTrade (lowerStr s) = false →
      occurs patBlock (lowerStr s) = true →
      detect_transaction_type s = BLOCK) ∧
    (∀ s : Str, occurs patClaim (lowerStr s) = false →
      occurs patDrop (lowerStr s) = false →
      occurs patTrade (lowerStr s) = false →
      occurs patBlock (lowerStr s) = false →
      occurs patDraft (lowerStr s) = true →
      detect_transaction_type s = DRAFT) ∧
    (∀ s : Str, occurs patClaim (lowerStr s) = false →
      occurs patDrop (lowerStr s) = false →
      occurs patTrade (lowerStr s) = false →
      occurs patBlock (lowerStr s) = false →
      occurs patDraft (lowerStr s) = false →
      detect_transaction_type s = UNKNOWN) ∧
    detect_transaction_type ((r"Player(s) Claimed - Team X").toList) = CLAIM ∧
    detect_transaction_type ((r"TRADE BLOCK CHANGED for Team Y").toList) = BLOCK ∧
    detect_transaction_type ((r"Weekly league newsletter").toList) = UNKNOWN := by
  refine ⟨?_, ?_, ?_, ?_, ?_, ?_, by decide, by decide, by decide⟩
  · intro s h1
    simp [detect_transaction_type, h1]
  · intro s h1 h2
    simp [detect_transaction_type, h1, h2]
  · intro s h1 h2 h3
    simp [detect_transaction_type, h1, h2, h3]
  · intro s h1 h2 h3 h4
    simp [detect_transaction_type, h1, h2, h3, h4]
  · intro s h1 h2 h3 h4 h5
    simp [detect_transaction_type, h1, h2, h3, h4, h5]
  · intro s h1 h2 h3 h4 h5
    simp [detect_transaction_type, h1, h2, h3, h4, h5]

/-- Witness for C2: the classifier hypotheses are satisfiable; the Drop
priority case is exercised on a concrete subject. -/
theorem claim_C2_witness :
    detect_transaction_type ((r"Fantrax - Free Agents Added To Pool").toList) = DROP := by
  exact claim_C2_subject_classification.2.1 _ (by decide) (by decide)

/-- C7 counterexample: the title `"Smith homers "` does not end in a
timestamp suffix, yet the cleaning is not the identity on it — the final
`.strip()` removes its trailing space. -/
theorem claim_C7_counterexample :
    timestampGroup ((stripR ((r"Smith homers ").toList)).drop
        ((stripR ((r"Smith homers ").toList)).length - 10)) = false ∧
    clean_title ((r"Smith homers ").toList) ≠ (r"Smith homers ").toList := by
  decide

/-- C7 (amended): title cleaning strips a trailing embedded timestamp
annotation matching `" (HH:MM:SS)"` at the end of the title (so
`"Smith homers (02:34:56)"` becomes `"Smith homers"`); a title that does not
end in such a timestamp suffix is returned with its surrounding whitespace
stripped — in particular it is unchanged whenever it has no leading or
trailing whitespace. -/
theorem claim_C7_title_cleaning :
    clean_title ((r"Smith homers (02:34:56)").toList) = (r"Smith homers").toList ∧
    (∀ t : Str,
      timestampGroup ((stripR t).drop ((stripR t).length - 10)) = false →
      clean_title t = strip t) ∧
    (∀ t : Str,
      timestampGroup ((stripR t).drop ((stripR t).length - 10)) = false →
      strip t = t → clean_title t = t) := by
  have key : ∀ t : Str,
      timestampGroup ((stripR t).drop ((stripR t).length - 10)) = false →
      clean_title t = strip t := by
    intro t h
    simp [clean_title, h]
  exact ⟨by decide, key, fun t h h' => (key t h).trans h'⟩

/-- Witness for C7: the no-timestamp hypotheses are satisfiable on a concrete
already-trimmed title, which the cleaning leaves unchanged. -/
theorem claim_C7_witness :
    clean_title ((r"Judge crushes a walk-off shot").toList) =
      (r"Judge crushes a walk-off shot").toList := by
  exact claim_C7_title_cleaning.2.2 _ (by decide) (by decide)

/-- The attempt counter of the retry loop never exceeds the attempt budget. -/
theorem runAttempts_fst_le (o : Nat → AttemptResult) :
    ∀ (rem i : Nat), (runAttempts o i rem).1 ≤ rem := by
  intro rem
  induction rem with
  | zero => intro i; simp [runAttempts]
  | succ n ih =>
    intro i
    cases h : o i with
    | ok => simp [runAttempts, h]
    | connError =>
      simp only [runAttempts, h]
      split
      · exact Nat.succ_le_succ (ih (i + 1))
      · exact Nat.succ_le_succ (Nat.zero_le n)
    | timeoutErr =>
      simp only [runAttempts, h]
      split
      · exact Nat.succ_le_succ (ih (i + 1))
      · exact Nat.succ_le_succ (Nat.zero_le n)
    | httpError s =>
      simp only [runAttempts, h]
      split
      · exact Nat.succ_le_succ (ih (i + 1))
      · exact Nat.succ_le_succ (Nat.zero_le n)

/-- With a positive attempt budget at least one attempt is performed. -/
theorem runAttempts_fst_pos (o : Nat → AttemptResult) :
    ∀ (rem i : Nat), 0 < rem → 0 < (runAttempts o i rem).1 := by
  intro rem i hrem
  cases rem with
  | zero => exact absurd hrem (by simp)
  | succ n =>
    cases h : o i with
    | ok => simp [runAttempts, h]
    | connError => simp only [runAttempts, h]; split <;> simp
    | timeoutErr => simp only [runAttempts, h]; split <;> simp
    | httpError s => simp only [runAttempts, h]; split <;> simp

/-- Every wait slept between attempts is the fixed 500 ms delay: the wait list
is `replicate (attempts - 1)` of the fixed wait. -/
theorem runAttempts_waits (o : Nat → AttemptResult) :
    ∀ (rem i : Nat),
      (runAttempts o i rem).2.1 = List.replicate ((runAttempts o i rem).1 - 1) waitFixedMs := by
  intro rem
  induction rem with
  | zero => intro i; simp [runAttempts]
  | succ n ih =>
    intro i
    have step : ∀ r : AttemptResult, o i = r → r ≠ .ok →
        (runAttempts o i (n + 1)).2.1 =
          List.replicate ((runAttempts o i (n + 1)).1 - 1) waitFixedMs := by
      intro r h hne
      cases r with
      | ok => exact absurd rfl hne
      | connError =>
        simp only [runAttempts, h]
        split
        · rename_i hcond
          have hn : n ≠ 0 := by
            simp only [Bool.and_eq_true, bne_iff_ne, ne_eq] at hcond
            exact hcond.2
          have hpos : 0 < (runAttempts o (i + 1) n).1 :=
            runAttempts_fst_pos o n (i + 1) (Nat.pos_of_ne_zero hn)
          obtain ⟨k, hk⟩ : ∃ k, (runAttempts o (i + 1) n).1 = k + 1 :=
            ⟨(runAttempts o (i + 1) n).1 - 1, (Nat.succ_pred_eq_of_pos hpos).symm⟩
          simp [ih (i + 1), hk, List.replicate_succ]
        · simp
      | timeoutErr =>
        simp only [runAttempts, h]
        split
        · rename_i hcond
          have hn : n ≠ 0 := by
            simp only [Bool.and_eq_true, bne_iff_ne, ne_eq] at hcond
            exact hcond.2
          have hpos : 0 < (runAttempts o (i + 1) n).1 :=
            runAttempts_fst_pos o n (i + 1) (Nat.pos_of_ne_zero hn)
          obtain ⟨k, hk⟩ : ∃ k, (runAttempts o (i + 1) n).1 = k + 1 :=
            ⟨(runAttempts o (i + 1) n).1 - 1, (Nat.succ_pred_eq_of_pos hpos).symm⟩
          simp [ih (i + 1), hk, List.replicate_succ]
        · simp
      | httpError s =>
        simp only [runAttempts, h]
        split
        · rename_i hcond
          have hn : n ≠ 0 := by
            simp only [Bool.and_eq_true, bne_iff_ne, ne_eq] at hcond
            exact hcond.2
          have hpos : 0 < (runAttempts o (i + 1) n).1 :=
            runAttempts_fst_pos o n (i + 1) (Nat.pos_of_ne_zero hn)
          obtain ⟨k, hk⟩ : ∃ k, (runAttempts o (i + 1) n).1 = k + 1 :=
            ⟨(runAttempts o (i + 1) n).1 - 1, (Nat.succ_pred_eq_of_pos hpos).symm⟩
          simp [ih (i + 1), hk, List.replicate_succ]
        · simp
    cases h : o i with
    | ok => simp [runAttempts, h]
    | connError => exact step _ h (by simp)
    | timeoutErr => exact step _ h (by simp)
    | httpError s => exact step _ h (by simp)

/-- C6: the webhook post performs at most 3 total attempts with a fixed
500 ms delay between consecutive attempts; it retries exactly on connection
failures, timeouts, and HTTP statuses in {429, 500, 502, 503, 504}, and any
other failure propagates immediately after a single attempt; responses
503, 503, 200 succeed after exactly 3 attempts, a 404 fails immediately with
no retry, and exhausted retries propagate the final error. -/
theorem claim_C6_retry_policy :
    (∀ o : Nat → AttemptResult, (post_with_retry o).1 ≤ 3) ∧
    (∀ o : Nat → AttemptResult,
      (post_with_retry o).2.1 = List.replicate ((post_with_retry o).1 - 1) waitFixedMs) ∧
    (∀ o : Nat → AttemptResult, ∀ r : AttemptResult,
      o 0 = r → r ≠ .ok → retryCondition r = false → post_with_retry o = (1, [], r)) ∧
    (∀ s : Nat, retryCondition (.httpError (some s)) = true ↔ s ∈ retryableStatusCodes) ∧
    retryCondition .connError = true ∧
    retryCondition .timeoutErr = true ∧
    retryCondition (.httpError none) = false ∧
    post_with_retry (fun i => if i < 2 then .httpError (some 503) else .ok) =
      (3, [waitFixedMs, waitFixedMs], .ok) ∧
    post_with_retry (fun _ => .httpError (some 404)) = (1, [], .httpError (some 404)) ∧
    post_with_retry (fun _ => .httpError (some 503)) =
      (3, [waitFixedMs, waitFixedMs], .httpError (some 503)) := by
  refine ⟨fun o => runAttempts_fst_le o 3 0, fun o => runAttempts_waits o 3 0,
    ?_, ?_, by decide, by decide, by decide, by decide, by decide, by decide⟩
  · intro o r h hne hrc
    cases r with
    | ok => exact absurd rfl hne
    | connError => simp [retryCondition] at hrc
    | timeoutErr => simp [retryCondition] at hrc
    | httpError s => simp [post_with_retry, runAttempts, h, hrc]
  · intro s
    simp [retryCondition, should_retry_http_error, List.elem_iff]

/-- Witness for C6: the immediate-propagation hypotheses are satisfiable —
a 400 response is not retried. -/
theorem claim_C6_witness :
    post_with_retry (fun _ => .httpError (some 400)) = (1, [], .httpError (some 400)) := by
  exact claim_C6_retry_policy.2.2.1 _ _ rfl (by decide) (by decide)

/-- C8: an entry of the highlights feed with a title and a description is
kept as a home run exactly when the case-insensitive title or description
contains `"homer"` or `"home run"` (the `isHRText` test), and the extracted
list contains exactly the entries kept this way. -/
theorem claim_C8_hr_classification :
    (∀ (g : Nat) (e t d u : Str) (rest : List Str),
      splitNL e = t :: d :: u :: rest → e ≠ [] →
      processHighlightEntry g e =
        (if isHRText t d then
          some { title := t, description := d, video_url := u, game_id := g }
        else none)) ∧
    (∀ (g : Nat) (text : Str) (x : Highlight),
      x ∈ extract_hr_highlights g text ↔
        ∃ e ∈ splitDoubleNL text, processHighlightEntry g e = some x) := by
  constructor
  · intro g e t d u rest hsplit he
    simp [processHighlightEntry, he, hsplit]
  · intro g text x
    simp [extract_hr_highlights, List.mem_filterMap]

/-- Witness for C8: a concrete three-line entry mentioning a homer only in
its description is classified as a home run. -/
theorem claim_C8_witness :
    processHighlightEntry 7
        (((r"Betts goes deep").toList ++ ('\n' :: (r"Mookie Betts homers twice").toList)) ++
          ('\n' :: (r"https://example.com/v/1").toList)) =
      some
        { title := (r"Betts goes deep").toList,
          description := (r"Mookie Betts homers twice").toList,
          video_url := (r"https://example.com/v/1").toList, game_id := 7 } := by
  have h := claim_C8_hr_classification.1 7
    (((r"Betts goes deep").toList ++ ('\n' :: (r"Mookie Betts homers twice").toList)) ++
      ('\n' :: (r"https://example.com/v/1").toList))
    ((r"Betts goes deep").toList) ((r"Mookie Betts homers twice").toList)
    ((r"https://example.com/v/1").toList) [] (by decide) (by decide)
  rw [h]
  decide

/-- C9 counterexample: with no webhook URL configured, `post_to_discord`
returns `False` without posting, yet `mark_video_posted` still runs — the
dedup record is written although no successful post (indeed no post attempt)
happened for the highlight. -/
theorem claim_C9_counterexample :
    handleHighlight false false [] ((r"2026-10-12").toList) ((r"https://example.com/v/9").toList) =
      ([((r"2026-10-12").toList, (r"https://example.com/v/9").toList)],
        [DingerEvent.marked ((r"2026-10-12").toList) ((r"https://example.com/v/9").toList)]) ∧
    has_posted_video
      (handleHighlight false false [] ((r"2026-10-12").toList)
        ((r"https://example.com/v/9").toList)).1
      ((r"2026-10-12").toList) ((r"https://example.com/v/9").toList) = true := by
  decide

/-- C9 (amended): a dedup record is created exactly when the post call
completes without raising — that is, on a successful webhook post, or in the
configuration case where no webhook URL is set and the post function returns
early without posting; a post that raises leaves the store unchanged, an
already-posted key is skipped without reposting, and `has_posted` on the key
transitions false → true exactly when `mark_posted` runs after the
non-raising call. -/
theorem claim_C9_dedup_store :
    (∀ (w p : Bool) (store : Store) (d u : Str),
      has_posted_video store d u = true → handleHighlight w p store d u = (store, [])) ∧
    (∀ (store : Store) (d u : Str),
      has_posted_video store d u = false →
      handleHighlight true true store d u = (store, [DingerEvent.postAttempt u]) ∧
      has_posted_video (handleHighlight true true store d u).1 d u = false) ∧
    (∀ (w p : Bool) (store : Store) (d u : Str),
      has_posted_video store d u = false → (w = false ∨ p = false) →
      (handleHighlight w p store d u).1 = mark_video_posted store d u ∧
      has_posted_video (handleHighlight w p store d u).1 d u = true) ∧
    (∀ (store : Store) (d u : Str),
      has_posted_video (mark_video_posted store d u) d u = true) := by
  have hmark : ∀ (store : Store) (d u : Str),
      has_posted_video (mark_video_posted store d u) d u = true := by
    intro store d u
    simp [has_posted_video, mark_video_posted, List.contains_cons]
  refine ⟨?_, ?_, ?_, hmark⟩
  · intro w p store d u h
    simp [handleHighlight, h]
  · intro store d u h
    refine ⟨by simp [handleHighlight, h], by simp [handleHighlight, h]⟩
  · intro w p store d u h hwp
    rcases hwp with hw | hp
    · subst hw
      exact ⟨by simp [handleHighlight, h], by simp [handleHighlight, h, hmark]⟩
    · subst hp
      cases w with
      | false => exact ⟨by simp [handleHighlight, h], by simp [handleHighlight, h, hmark]⟩
      | true => exact ⟨by simp [handleHighlight, h], by simp [handleHighlight, h, hmark]⟩

/-- Witness for C9: on an empty store the key is unposted; a successful post
marks it and `has_posted` flips to true. -/
theorem claim_C9_witness :
    (handleHighlight true false [] ((r"2026-10-12").toList) ((r"https://example.com/v/2").toList)).1 =
      mark_video_posted [] ((r"2026-10-12").toList) ((r"https://example.com/v/2").toList) ∧
    has_posted_video
      (handleHighlight true false [] ((r"2026-10-12").toList)
        ((r"https://example.com/v/2").toList)).1
      ((r"2026-10-12").toList) ((r"https://example.com/v/2").toList) = true := by
  exact claim_C9_dedup_store.2.2.1 true false [] _ _ (by decide) (Or.inr rfl)

/-- C3: every per-type field extractor is a total function of its input: for
every input it returns a value — a structured record, the raw-text
passthrough carrying the input text itself (Claim, Drop, Draft), or the
explicit no-result `none` (Trade, Block) — and the embedding has no failure
mode outside these shapes. -/
theorem claim_C3_extractors_total :
    (∀ text : Str,
      (∃ a b c, parse_claim text = ClaimResult.structured a b c) ∨
        parse_claim text = ClaimResult.raw text) ∧
    (∀ text : Str,
      (∃ ps, parse_drop text = DropResult.players ps) ∨
        parse_drop text = DropResult.raw text) ∧
    (∀ text : Str,
      (∃ a b c d, parse_draft text = DraftResult.structured a b c d) ∨
        parse_draft text = DraftResult.raw text) ∧
    (∀ html : Node, (∃ td, parse_trade html = some td) ∨ parse_trade html = none) ∧
    (∀ text : Str,
      (∃ tb, parse_trade_block text = some tb) ∨ parse_trade_block text = none) := by
  refine ⟨?_, ?_, ?_, ?_, ?_⟩
  · intro text
    cases hm : msearch claimPattern text with
    | some g =>
      obtain ⟨g1, g2, g3, g4⟩ := g
      exact Or.inl ⟨strip g1, strip g2 ++ ' ' :: strip g3, strip g4,
        by simp [parse_claim, hm]⟩
    | none => exact Or.inr (by simp [parse_claim, hm])
  · intro text
    cases hm : msearch dropPattern text with
    | some g =>
      exact Or.inl ⟨((splitNL (strip g)).map strip).filter (fun p => p ≠ []),
        by simp [parse_drop, hm]⟩
    | none => exact Or.inr (by simp [parse_drop, hm])
  · intro text
    cases hm : msearch draftPattern text with
    | some g =>
      obtain ⟨g1, g2, g3, g4⟩ := g
      exact Or.inl ⟨normWs g1, normWs g2, normWs g3, normWs g4,
        by simp [parse_draft, hm]⟩
    | none => exact Or.inr (by simp [parse_draft, hm])
  · intro html
    cases hm : parse_trade html with
    | some td => exact Or.inl ⟨td, rfl⟩
    | none => exact Or.inr rfl
  · intro text
    cases hm : parse_trade_block text with
    | some tb => exact Or.inl ⟨tb, rfl⟩
    | none => exact Or.inr rfl

/-- The events of `_process_single_message` are webhook posts only — it never
issues an archive modification itself. -/
theorem ps_events_no_archive (msg : GmailMessage) (p : Bool) (tu bu : Option Str) (i : Str) :
    TxEvent.archive i ∉ (process_single_message msg p tu bu).1 := by
  unfold process_single_message
  repeat' split <;> try simp

/-- One loop iteration issues the archive modification for its own message id
exactly once, and never for any other id. -/
theorem handle_count (fetch : Str → Option GmailMessage) (postOk : Str → Bool)
    (tu bu : Option Str) (id i : Str) :
    ((handleMessage fetch postOk tu bu id).1).count (TxEvent.archive i) =
      if i = id then 1 else 0 := by
  unfold handleMessage
  cases hf : fetch id with
  | none =>
    by_cases h : i = id <;> simp [List.count_singleton, h]
  | some msg =>
    rw [List.count_append]
    have h0 : ((process_single_message msg (postOk id) tu bu).1).count (TxEvent.archive i) = 0 :=
      List.count_eq_zero.mpr (ps_events_no_archive msg (postOk id) tu bu i)
    by_cases h : i = id
    · subst h; simp [h0, List.count_singleton]
    · simp [h0, List.count_singleton, h]

/-- Across a processing pass, the archive modifications for an id are in
bijection with that id's occurrences in the processed listing. -/
theorem loop_count (fetch : Str → Option GmailMessage) (postOk : Str → Bool)
    (tu bu : Option Str) (i : Str) :
    ∀ ids : List Str,
      ((processMessages fetch postOk tu bu ids).1).count (TxEvent.archive i) = ids.count i := by
  intro ids
  induction ids with
  | nil => simp [processMessages]
  | cons id rest ih =>
    simp only [processMessages]
    rw [List.count_append, handle_count, ih]
    by_cases h : i = id <;> simp [List.count_cons, h, Nat.add_comm]

/-- Count of a string in a duplicate-free list of strings that contains it. -/
theorem str_count_eq_one (ids : List Str) (i : Str) (hnd : ids.Nodup) (hm : i ∈ ids) :
    ids.count i = 1 := by
  induction ids with
  | nil => cases hm
  | cons a l ih =>
    have hout : a ∉ l := (List.nodup_cons.mp hnd).1
    rcases List.mem_cons.mp hm with h | h
    · subst h
      rw [List.count_cons]
      simp [List.count_eq_zero.mpr hout]
    · have hne : i ≠ a := fun e => hout (e ▸ h)
      rw [List.count_cons]
      simp [ih (List.nodup_cons.mp hnd).2 h, hne, Ne.symm hne]

/-- Each message contributes at most one entry to the result list. -/
theorem loop_results_le (fetch : Str → Option GmailMessage) (postOk : Str → Bool)
    (tu bu : Option Str) :
    ∀ ids : List Str, ((processMessages fetch postOk tu bu ids).2).length ≤ ids.length := by
  intro ids
  induction ids with
  | nil => simp [processMessages]
  | cons id rest ih =>
    simp only [processMessages]
    cases h2 : (handleMessage fetch postOk tu bu id).2 with
    | some x => simpa using Nat.succ_le_succ ih
    | none => exact Nat.le_succ_of_le ih

/-- C4: in a processing pass over distinct listed messages, the archive
modification (removing the INBOX label) is issued exactly once per message,
whatever the per-message outcome — including a fetch/parse/post exception and
the skip cases; in particular a classified message with no HTML body produces
no processing result but is still archived. -/
theorem claim_C4_archive_exactly_once :
    (∀ (fetch : Str → Option GmailMessage) (postOk : Str → Bool) (tu bu : Option Str)
      (ids : List Str) (i : Str), ids.Nodup → i ∈ ids →
      ((processMessages fetch postOk tu bu ids).1).count (TxEvent.archive i) = 1) ∧
    (∀ (msg : GmailMessage) (p : Bool) (tu bu : Option Str),
      extract_html_body msg.payload = none →
      process_single_message msg p tu bu = ([], Except.ok none)) ∧
    (∀ (fetch : Str → Option GmailMessage) (postOk : Str → Bool) (tu bu : Option Str)
      (i : Str) (msg : GmailMessage), fetch i = some msg →
      extract_html_body msg.payload = none →
      handleMessage fetch postOk tu bu i = ([TxEvent.archive i], none)) := by
  have hskip : ∀ (msg : GmailMessage) (p : Bool) (tu bu : Option Str),
      extract_html_body msg.payload = none →
      process_single_message msg p tu bu = ([], Except.ok none) := by
    intro msg p tu bu h
    unfold process_single_message
    by_cases ht : detect_transaction_type (getSubject msg.payload.headers) = UNKNOWN
    · simp [ht]
    · simp [ht, h]
  refine ⟨?_, hskip, ?_⟩
  · intro fetch postOk tu bu ids i hnd hm
    rw [loop_count]
    exact str_count_eq_one ids i hnd hm
  · intro fetch postOk tu bu i msg hf h
    unfold handleMessage
    rw [hf]
    simp [hskip msg (postOk i) tu bu h]

/-- Witness for C4: a single classified message whose body has no HTML part —
the pass yields no result for it, yet exactly one archive is issued. -/
theorem claim_C4_witness :
    ((processMessages
        (fun _ => some
          { id := (r"m1").toList,
            payload :=
              { mimeType := (r"multipart/alternative").toList, data := none, parts := [],
                headers := [((r"Subject").toList, (r"Player(s) Claimed - Team X").toList)] } })
        (fun _ => true) none none [(r"m1").toList]).1).count
      (TxEvent.archive ((r"m1").toList)) = 1 := by
  exact claim_C4_archive_exactly_once.1 _ _ none none [(r"m1").toList] ((r"m1").toList)
    (by decide) (by decide)

/-- C10: one invocation of the inbox pass handles at most 50 messages — the
listing is capped at `maxResults = 50`, so the aggregated result list never
exceeds 50 entries, and a distinct unarchived message beyond the first 50 is
left untouched (no archive is issued for it) until a later invocation. -/
theorem claim_C10_listing_cap :
    (∀ (fetch : Str → Option GmailMessage) (postOk : Str → Bool) (tu bu : Option Str)
      (inbox : List Str),
      ((process_email fetch postOk tu bu inbox).2).length ≤ listMaxResults) ∧
    (∀ (fetch : Str → Option GmailMessage) (postOk : Str → Bool) (tu bu : Option Str)
      (inbox : List Str) (i : Str), inbox.Nodup → i ∈ inbox.drop listMaxResults →
      TxEvent.archive i ∉ (process_email fetch postOk tu bu inbox).1) := by
  constructor
  · intro fetch postOk tu bu inbox
    exact le_trans (loop_results_le fetch postOk tu bu (inbox.take listMaxResults))
      (List.length_take_le listMaxResults inbox)
  · intro fetch postOk tu bu inbox i hnd hdropmem hmem
    have hpos : 0 < ((processMessages fetch postOk tu bu (inbox.take listMaxResults)).1).count
        (TxEvent.archive i) :=
      List.count_pos_iff.mpr hmem
    rw [loop_count] at hpos
    have htakemem : i ∈ inbox.take listMaxResults := List.count_pos_iff.mp hpos
    exact List.disjoint_take_drop hnd (le_refl listMaxResults) htakemem hdropmem

/-- Witness for C10: on a 51-message inbox of distinct ids, the 51st message
is left untouched by the pass. -/
theorem claim_C10_witness :
    TxEvent.archive [Char.ofNat 115] ∉
      (process_email (fun _ => none) (fun _ => true) none none
        ((List.range 51).map (fun n => [Char.ofNat (65 + n)]))).1 := by
  exact claim_C10_listing_cap.2 _ _ none none _ _ (by decide) (by decide)

theorem isPre_self_append : ∀ (p z : Str), isPre p (p ++ z) = true := by
  intro p
  induction p with
  | nil => intro z; simp [isPre]
  | cons c cs ih => intro z; simp [isPre, ih]

theorem splitFirst_firstOcc (pat : Str) (hpat : pat ≠ []) :
    ∀ (x y : Str), firstOccAt pat x y → splitFirst pat (x ++ (pat ++ y)) = some (x, y) := by
  intro x
  induction x with
  | nil =>
    intro y _
    obtain ⟨p0, pr, rfl⟩ : ∃ p0 pr, pat = p0 :: pr := by
      cases pat with
      | nil => exact absurd rfl hpat
      | cons a b => exact ⟨a, b, rfl⟩
    simp only [List.nil_append]
    show splitFirst (p0 :: pr) ((p0 :: pr) ++ y) = some ([], y)
    have h1 : isPre (p0 :: pr) ((p0 :: pr) ++ y) = true := isPre_self_append _ _
    simp only [List.cons_append, splitFirst]
    rw [if_pos]
    · simp only [List.length_cons]
      congr 1
      have := List.drop_left (p0 :: pr) y
      simpa using this
    · simpa [List.cons_append] using h1
  | cons c x' ih =>
    intro y h
    have h0 : isPre pat ((c :: x') ++ (pat ++ y)) = false := by
      have := h 0 (by simp)
      simpa using this
    have hshift : firstOccAt pat x' y := by
      intro n hn
      have := h (n + 1) (by simp; omega)
      simpa using this
    simp only [List.cons_append, splitFirst]
    rw [if_neg (by simp_all)]
    have hrec := ih y hshift
    simp only [List.append_eq]
    rw [hrec]

theorem length_dropWhile_le' (p : Char → Bool) (l : Str) : (l.dropWhile p).length ≤ l.length := by
  induction l with
  | nil => simp
  | cons c cs ih =>
    by_cases h : p c
    · simp only [List.dropWhile_cons]
      rw [if_pos h]
      exact Nat.le_succ_of_le ih
    · simp only [List.dropWhile_cons]
      rw [if_neg h]

theorem matchSepDrop_lt : ∀ (s s' : Str), matchSepDrop s = some s' → s'.length < s.length := by
  intro s s' h
  cases s with
  | nil => simp [matchSepDrop] at h
  | cons c rest =>
    by_cases hc : c = '\n'
    · simp only [matchSepDrop, if_pos hc, Option.some.injEq] at h
      subst h
      exact Nat.lt_succ_of_le (length_dropWhile_le' _ rest)
    · cases rest with
      | nil => simp [matchSepDrop, hc] at h
      | cons d rest₂ =>
        by_cases hw : c.isWhitespace && d.isWhitespace
        · simp only [matchSepDrop, if_neg hc, if_pos hw, Option.some.injEq] at h
          subst h
          exact Nat.lt_trans (Nat.lt_succ_of_le (length_dropWhile_le' _ rest₂)) (Nat.lt_succ_self _)
        · simp [matchSepDrop, hc, hw] at h

theorem resplitFuel_congr : ∀ (fuel g : Nat) (acc s : Str),
    s.length ≤ fuel → s.length ≤ g → resplitFuel fuel acc s = resplitFuel g acc s := by
  intro fuel
  induction fuel with
  | zero =>
    intro g acc s hf _
    have : s = [] := List.eq_nil_of_length_eq_zero (Nat.le_zero.mp hf)
    subst this
    cases g <;> simp [resplitFuel]
  | succ f ih =>
    intro g acc s hf hg
    cases s with
    | nil => cases g <;> simp [resplitFuel]
    | cons c rest =>
      obtain ⟨g', rfl⟩ : ∃ g', g = g' + 1 := by
        cases g with
        | zero => simp at hg
        | succ k => exact ⟨k, rfl⟩
      cases hm : matchSepDrop (c :: rest) with
      | some s' =>
        simp only [resplitFuel, hm]
        have hlt := matchSepDrop_lt _ _ hm
        have h1 : s'.length ≤ f := by
          have := Nat.lt_of_lt_of_le hlt hf
          omega
        have h2 : s'.length ≤ g' := by
          have := Nat.lt_of_lt_of_le hlt hg
          omega
        rw [ih g' [] s' h1 h2]
      | none =>
        simp only [resplitFuel, hm]
        have h1 : rest.length ≤ f := by simp at hf; omega
        have h2 : rest.length ≤ g' := by simp at hg; omega
        rw [ih g' (c :: acc) rest h1 h2]

theorem noNLin_cons (c : Char) (t : Str) (h : noNLin (c :: t) = true) :
    c ≠ '\n' ∧ noNLin t = true := by
  simp only [noNLin, List.all_cons, Bool.and_eq_true, bne_iff_ne, ne_eq] at h
  exact ⟨h.1, h.2⟩

theorem noAdjWs_cons2 (c d : Char) (t : Str) (h : noAdjWs (c :: d :: t) = true) :
    (c.isWhitespace && d.isWhitespace) = false ∧ noAdjWs (d :: t) = true := by
  simp only [noAdjWs, Bool.and_eq_true, Bool.not_eq_true'] at h
  exact ⟨h.1, h.2⟩

theorem lastNotWs_cons2 (c d : Char) (t : Str) :
    lastNotWs (c :: d :: t) = lastNotWs (d :: t) := by
  simp [lastNotWs, List.getLast?_cons_cons]

theorem resplitFuel_through (rest : Str) :
    ∀ n : Str, n ≠ [] → noNLin n = true → noAdjWs n = true → lastNotWs n = true →
    ∀ (acc : Str) (fuel : Nat), n.length + (rest.length + 1) ≤ fuel →
      resplitFuel fuel acc (n ++ ('\n' :: rest)) =
        (acc.reverse ++ n) :: resplitFuel (rest.dropWhile (fun x => x = '\n')).length []
          (rest.dropWhile (fun x => x = '\n')) := by
  intro n
  induction n with
  | nil => intro h; exact absurd rfl h
  | cons c n' ih =>
    intro _ hnl hadj hlast acc fuel hfuel
    obtain ⟨hc, hnl'⟩ := noNLin_cons c n' hnl
    cases n' with
    | nil =>
      obtain ⟨f, rfl⟩ : ∃ f, fuel = f + 1 := by
        cases fuel with
        | zero => simp at hfuel
        | succ k => exact ⟨k, rfl⟩
      have hcw : c.isWhitespace = false := by
        simpa [lastNotWs] using hlast
      simp only [List.cons_append, List.nil_append, resplitFuel, List.append_eq]
      rw [show matchSepDrop (c :: '\n' :: rest) = none by
        simp [matchSepDrop, hc, hcw]]
      obtain ⟨f', rfl⟩ : ∃ f', f = f' + 1 := by
        cases f with
        | zero => simp at hfuel
        | succ k => exact ⟨k, rfl⟩
      simp only [resplitFuel]
      rw [show matchSepDrop ('\n' :: rest) = some (rest.dropWhile (fun x => x = '\n')) by
        simp [matchSepDrop]]
      dsimp only
      have hlen : (rest.dropWhile (fun x => x = '\n')).length ≤ f' := by
        have := length_dropWhile_le' (fun x => x = '\n') rest
        simp only [List.length_cons, List.length_nil] at hfuel
        omega
      rw [resplitFuel_congr f' (rest.dropWhile (fun x => x = '\n')).length []
        (rest.dropWhile (fun x => x = '\n')) hlen (le_refl _)]
      simp
    | cons d n'' =>
      obtain ⟨f, rfl⟩ : ∃ f, fuel = f + 1 := by
        cases fuel with
        | zero => simp at hfuel
        | succ k => exact ⟨k, rfl⟩
      obtain ⟨hw, hadj'⟩ := noAdjWs_cons2 c d n'' hadj
      simp only [List.cons_append, resplitFuel, List.append_eq]
      rw [show matchSepDrop (c :: d :: (n'' ++ ('\n' :: rest))) = none by
        simp only [matchSepDrop, if_neg hc]
        rw [if_neg (by simp [hw])]]
      dsimp only
      have hrec := ih (by simp) hnl' hadj'
        (by rw [← lastNotWs_cons2 c d n'']; exact hlast) (c :: acc) f
        (by simp only [List.length_cons] at hfuel ⊢; omega)
      simp only [List.cons_append, List.append_eq] at hrec
      rw [hrec]
      simp

theorem resplitFuel_last :
    ∀ n : Str, n ≠ [] → noNLin n = true → noAdjWs n = true → lastNotWs n = true →
    ∀ (acc : Str) (fuel : Nat), n.length ≤ fuel →
      resplitFuel fuel acc n = [acc.reverse ++ n] := by
  intro n
  induction n with
  | nil => intro h; exact absurd rfl h
  | cons c n' ih =>
    intro _ hnl hadj hlast acc fuel hfuel
    obtain ⟨hc, hnl'⟩ := noNLin_cons c n' hnl
    obtain ⟨f, rfl⟩ : ∃ f, fuel = f + 1 := by
      cases fuel with
      | zero => simp at hfuel
      | succ k => exact ⟨k, rfl⟩
    cases n' with
    | nil =>
      simp only [resplitFuel]
      rw [show matchSepDrop [c] = none by simp [matchSepDrop, hc]]
      dsimp only
      cases f <;> simp [resplitFuel]
    | cons d n'' =>
      obtain ⟨hw, hadj'⟩ := noAdjWs_cons2 c d n'' hadj
      simp only [resplitFuel]
      rw [show matchSepDrop (c :: d :: n'') = none by
        simp only [matchSepDrop, if_neg hc]
        rw [if_neg (by simp [hw])]]
      dsimp only
      have hrec := ih (by simp) hnl' hadj'
        (by rw [← lastNotWs_cons2 c d n'']; exact hlast) (c :: acc) f
        (by simp only [List.length_cons] at hfuel ⊢; omega)
      rw [hrec]
      simp

theorem headNotWs_append (x z : Str) (hx : x ≠ []) : headNotWs (x ++ z) = headNotWs x := by
  cases x with
  | nil => exact absurd rfl hx
  | cons c t => simp [headNotWs]

theorem lastNotWs_append (x z : Str) (hz : z ≠ []) : lastNotWs (x ++ z) = lastNotWs z := by
  simp [lastNotWs, List.getLast?_append_of_ne_nil x hz]

theorem stripL_of_headNotWs (p : Str) (h : headNotWs p = true) : stripL p = p := by
  cases p with
  | nil => simp [stripL]
  | cons c t =>
    simp only [headNotWs, List.head?_cons, Bool.not_eq_true'] at h
    simp [stripL, List.dropWhile_cons, h]

theorem stripR_of_lastNotWs (p : Str) (h : lastNotWs p = true) : stripR p = p := by
  rcases List.eq_nil_or_concat p with rfl | ⟨ys, y, rfl⟩
  · simp [stripR]
  · have hy : y.isWhitespace = false := by
      simpa [lastNotWs, List.getLast?_concat] using h
    simp [stripR, List.reverse_append, List.dropWhile_cons, hy]

theorem strip_good (p : Str) (hh : headNotWs p = true) (hl : lastNotWs p = true) :
    strip p = p := by
  rw [strip, stripR_of_lastNotWs p hl, stripL_of_headNotWs p hh]

theorem strip_wrap (x : Str) (hx : x ≠ []) (hh : headNotWs x = true) (hl : lastNotWs x = true) :
    strip ('\n' :: (x ++ ['\n'])) = x := by
  have hnlws : ('\n' : Char).isWhitespace = true := by decide
  have h1 : stripR ('\n' :: (x ++ ['\n'])) = '\n' :: x := by
    rcases List.eq_nil_or_concat x with rfl | ⟨ys, y, rfl⟩
    · exact absurd rfl hx
    · have hy : y.isWhitespace = false := by
        simpa [lastNotWs, List.getLast?_concat] using hl
      simp only [List.concat_eq_append] at hx hh hl ⊢
      have e1 : ('\n' :: ((ys ++ [y]) ++ ['\n'])).reverse =
          '\n' :: (y :: (ys.reverse ++ ['\n'])) := by
        simp
      rw [stripR, e1]
      rw [List.dropWhile_cons, if_pos hnlws, List.dropWhile_cons, if_neg (by simp [hy])]
      simp
  rw [strip, h1]
  have h2 : stripL ('\n' :: x) = stripL x := by
    rw [stripL, List.dropWhile_cons, if_pos hnlws, stripL]
  rw [h2, stripL_of_headNotWs x hh]

theorem dropNL_of_head (m z : Str) (hm : m ≠ []) (hnl : noNLin m = true) :
    (m ++ z).dropWhile (fun x => x = '\n') = m ++ z := by
  cases m with
  | nil => exact absurd rfl hm
  | cons c t =>
    obtain ⟨hc, -⟩ := noNLin_cons c t hnl
    simp [List.dropWhile_cons, hc]

theorem goodName_spec (p : Str) (h : goodName p = true) :
    p ≠ [] ∧ noNLin p = true ∧ noAdjWs p = true ∧ headNotWs p = true ∧ lastNotWs p = true := by
  simp only [goodName, Bool.and_eq_true, Bool.not_eq_true'] at h
  exact ⟨by simpa [List.isEmpty_iff] using h.1.1.1.1, h.1.1.1.2, h.1.1.2, h.1.2, h.2⟩

theorem dropNL_head (m : Str) (hm : m ≠ []) (hnl : noNLin m = true) :
    m.dropWhile (fun x => x = '\n') = m := by
  cases m with
  | nil => simp
  | cons c t =>
    obtain ⟨hc, -⟩ := noNLin_cons c t hnl
    simp [List.dropWhile_cons, hc]

theorem resplit_joined (p1 p2 p3 p4 p5 p6 : Str)
    (g1 : goodName p1 = true) (g2 : goodName p2 = true) (g3 : goodName p3 = true)
    (g4 : goodName p4 = true) (g5 : goodName p5 = true) (g6 : goodName p6 = true) :
    resplit (joined [p1, p2, p3, p4, p5, p6]) = [p1, p2, p3, p4, p5, p6] := by
  obtain ⟨ne1, nl1, adj1, hh1, hl1⟩ := goodName_spec p1 g1
  obtain ⟨ne2, nl2, adj2, hh2, hl2⟩ := goodName_spec p2 g2
  obtain ⟨ne3, nl3, adj3, hh3, hl3⟩ := goodName_spec p3 g3
  obtain ⟨ne4, nl4, adj4, hh4, hl4⟩ := goodName_spec p4 g4
  obtain ⟨ne5, nl5, adj5, hh5, hl5⟩ := goodName_spec p5 g5
  obtain ⟨ne6, nl6, adj6, hh6, hl6⟩ := goodName_spec p6 g6
  have hj : joined [p1, p2, p3, p4, p5, p6] =
      p1 ++ ('\n' :: (p2 ++ ('\n' :: (p3 ++ ('\n' :: (p4 ++ ('\n' :: (p5 ++ ('\n' :: p6))))))))) :=
    rfl
  rw [resplit, hj]
  have hlen : ∀ (a b : Str), a.length + (b.length + 1) ≤ (a ++ ('\n' :: b)).length := by
    intro a b
    simp [List.length_append]
  rw [resplitFuel_through _ p1 ne1 nl1 adj1 hl1 (@List.nil Char)
    ((p1 ++ ('\n' :: (p2 ++ ('\n' :: (p3 ++ ('\n' :: (p4 ++ ('\n' :: (p5 ++ ('\n' :: p6)))))))))).length)
    (hlen p1 _)]
  rw [dropNL_of_head p2 ('\n' :: (p3 ++ ('\n' :: (p4 ++ ('\n' :: (p5 ++ ('\n' :: p6))))))) ne2 nl2]
  rw [resplitFuel_through _ p2 ne2 nl2 adj2 hl2 (@List.nil Char) _ (hlen p2 _)]
  rw [dropNL_of_head p3 ('\n' :: (p4 ++ ('\n' :: (p5 ++ ('\n' :: p6))))) ne3 nl3]
  rw [resplitFuel_through _ p3 ne3 nl3 adj3 hl3 (@List.nil Char) _ (hlen p3 _)]
  rw [dropNL_of_head p4 ('\n' :: (p5 ++ ('\n' :: p6))) ne4 nl4]
  rw [resplitFuel_through _ p4 ne4 nl4 adj4 hl4 (@List.nil Char) _ (hlen p4 _)]
  rw [dropNL_of_head p5 ('\n' :: p6) ne5 nl5]
  rw [resplitFuel_through _ p5 ne5 nl5 adj5 hl5 (@List.nil Char) _ (hlen p5 _)]
  rw [dropNL_head p6 ne6 nl6]
  rw [resplitFuel_last p6 ne6 nl6 adj6 hl6 (@List.nil Char) p6.length (le_refl _)]
  simp

theorem extract_players_eq (P : Str) (hP : P ≠ []) (hh : headNotWs P = true)
    (hl : lastNotWs P = true)
    (H1 : firstOccAt lblPosC ('\n' :: (P ++ ['\n'])) tailAfterPos) :
    extract_section (mkBodyP P) ((r"Players Offered").toList) ((r"Positions Offered").toList) =
      P := by
  simp only [extract_section]
  rw [show (r"Players Offered").toList ++ [':'] = lblPlayersC from rfl]
  rw [show (r"Positions Offered").toList ++ [':'] = lblPosC from rfl]
  rw [show splitFirst lblPlayersC (mkBodyP P) =
      some (teamLine ++ ['\n'], '\n' :: (P ++ bodyTail)) from rfl]
  dsimp only
  rw [show ('\n' :: (P ++ bodyTail)) = ('\n' :: (P ++ ['\n'])) ++ (lblPosC ++ tailAfterPos) by
    simp [bodyTail, List.append_assoc]]
  rw [splitFirst_firstOcc lblPosC (by decide) _ _ H1]
  dsimp only
  exact strip_wrap P hP hh hl

theorem extract_posoff_eq (P : Str) (H2 : firstOccAt lblPosC (prePosOff P) tailAfterPos) :
    extract_section (mkBodyP P) ((r"Positions Offered").toList) ((r"Stats Offered").toList) =
      [] := by
  simp only [extract_section]
  rw [show (r"Positions Offered").toList ++ [':'] = lblPosC from rfl]
  rw [show (r"Stats Offered").toList ++ [':'] = lblStatsC from rfl]
  rw [show mkBodyP P = prePosOff P ++ (lblPosC ++ tailAfterPos) by
    simp [mkBodyP, prePosOff, bodyTail, List.append_assoc]]
  rw [splitFirst_firstOcc lblPosC (by decide) _ _ H2]
  dsimp only
  rw [show splitFirst lblStatsC tailAfterPos = some (['\n'], tailAfterStats) from rfl]
  rfl

theorem extract_statsoff_eq (P : Str)
    (H3 : firstOccAt lblStatsC (preStatsOff P) tailAfterStats) :
    extract_section (mkBodyP P) ((r"Stats Offered").toList) ((r"Positions Needed").toList) =
      [] := by
  simp only [extract_section]
  rw [show (r"Stats Offered").toList ++ [':'] = lblStatsC from rfl]
  rw [show (r"Positions Needed").toList ++ [':'] = lblPosNeedC from rfl]
  rw [show mkBodyP P = preStatsOff P ++ (lblStatsC ++ tailAfterStats) by
    simp [mkBodyP, preStatsOff, bodyTail, tailAfterPos, List.append_assoc]]
  rw [splitFirst_firstOcc lblStatsC (by decide) _ _ H3]
  dsimp only
  rw [show splitFirst lblPosNeedC tailAfterStats = some (['\n'], tailAfterPosNeed) from rfl]
  rfl

theorem extract_posneed_eq (P : Str)
    (H4 : firstOccAt lblPosNeedC (prePosNeed P) tailAfterPosNeed) :
    extract_section (mkBodyP P) ((r"Positions Needed").toList) ((r"Stats Needed").toList) =
      [] := by
  simp only [extract_section]
  rw [show (r"Positions Needed").toList ++ [':'] = lblPosNeedC from rfl]
  rw [show (r"Stats Needed").toList ++ [':'] = lblStatsNeedC from rfl]
  rw [show mkBodyP P = prePosNeed P ++ (lblPosNeedC ++ tailAfterPosNeed) by
    simp [mkBodyP, prePosNeed, bodyTail, tailAfterPos, tailAfterStats, List.append_assoc]]
  rw [splitFirst_firstOcc lblPosNeedC (by decide) _ _ H4]
  dsimp only
  rw [show splitFirst lblStatsNeedC tailAfterPosNeed = some (['\n'], tailAfterStatsNeed) from rfl]
  rfl

theorem extract_statsneed_eq (P : Str)
    (H5 : firstOccAt lblStatsNeedC (preStatsNeed P) tailAfterStatsNeed) :
    extract_stats_needed (mkBodyP P) = [] := by
  simp only [extract_stats_needed]
  rw [show (r"Stats Needed:").toList = lblStatsNeedC from rfl]
  rw [show (r"Comment:").toList = lblCommentC from rfl]
  rw [show mkBodyP P = preStatsNeed P ++ (lblStatsNeedC ++ tailAfterStatsNeed) by
    simp [mkBodyP, preStatsNeed, bodyTail, tailAfterPos, tailAfterStats, tailAfterPosNeed,
      List.append_assoc]]
  rw [splitFirst_firstOcc lblStatsNeedC (by decide) _ _ H5]
  dsimp only
  rw [show splitFirst lblCommentC tailAfterStatsNeed = some (['\n'], tailAfterComment) from rfl]
  rfl

theorem extract_comment_eq (P : Str)
    (H6 : firstOccAt lblCommentC (preComment P) tailAfterComment) :
    extract_comment (mkBodyP P) = [] := by
  simp only [extract_comment]
  rw [show (r"Comment:").toList = lblCommentC from rfl]
  rw [show mkBodyP P = preComment P ++ (lblCommentC ++ tailAfterComment) by
    simp [mkBodyP, preComment, bodyTail, tailAfterPos, tailAfterStats, tailAfterPosNeed,
      tailAfterStatsNeed, List.append_assoc]]
  rw [splitFirst_firstOcc lblCommentC (by decide) _ _ H6]
  dsimp only
  rw [show splitFirst ((r"Note that").toList) tailAfterComment =
      some (['\n'], (r" you can make changes to your Trade Block at any time.").toList) from rfl]
  rfl

theorem trade_block_roundtrip_aux (p1 p2 p3 p4 p5 p6 : Str)
    (g1 : goodName p1 = true) (g2 : goodName p2 = true) (g3 : goodName p3 = true)
    (g4 : goodName p4 = true) (g5 : goodName p5 = true) (g6 : goodName p6 = true)
    (H1 : firstOccAt lblPosC ('\n' :: (joined [p1, p2, p3, p4, p5, p6] ++ ['\n'])) tailAfterPos)
    (H2 : firstOccAt lblPosC (prePosOff (joined [p1, p2, p3, p4, p5, p6])) tailAfterPos)
    (H3 : firstOccAt lblStatsC (preStatsOff (joined [p1, p2, p3, p4, p5, p6])) tailAfterStats)
    (H4 : firstOccAt lblPosNeedC (prePosNeed (joined [p1, p2, p3, p4, p5, p6])) tailAfterPosNeed)
    (H5 : firstOccAt lblStatsNeedC (preStatsNeed (joined [p1, p2, p3, p4, p5, p6]))
      tailAfterStatsNeed)
    (H6 : firstOccAt lblCommentC (preComment (joined [p1, p2, p3, p4, p5, p6]))
      tailAfterComment) :
    parse_trade_block (mkBlankBody [p1, p2, p3, p4, p5, p6]) =
      some
        { team := (r"Grand Salamis").toList,
          players_offered := [p1, p2, p3, p4, p5, p6],
          positions_offered := noneSpecified, stats_offered := noneSpecified,
          positions_needed := noneSpecified, stats_needed := noneSpecified,
          comment := [] } := by
  obtain ⟨ne1, nl1, adj1, hh1, hl1⟩ := goodName_spec p1 g1
  obtain ⟨ne2, nl2, adj2, hh2, hl2⟩ := goodName_spec p2 g2
  obtain ⟨ne3, nl3, adj3, hh3, hl3⟩ := goodName_spec p3 g3
  obtain ⟨ne4, nl4, adj4, hh4, hl4⟩ := goodName_spec p4 g4
  obtain ⟨ne5, nl5, adj5, hh5, hl5⟩ := goodName_spec p5 g5
  obtain ⟨ne6, nl6, adj6, hh6, hl6⟩ := goodName_spec p6 g6
  have hPdef : joined [p1, p2, p3, p4, p5, p6] =
      p1 ++ ('\n' :: (p2 ++ ('\n' :: (p3 ++ ('\n' :: (p4 ++ ('\n' :: (p5 ++ ('\n' :: p6))))))))) :=
    rfl
  have hPne : joined [p1, p2, p3, p4, p5, p6] ≠ [] := by
    rw [hPdef]
    intro hc
    exact ne1 (List.append_eq_nil.mp hc).1
  have hPhead : headNotWs (joined [p1, p2, p3, p4, p5, p6]) = true := by
    rw [hPdef, headNotWs_append _ _ ne1]
    exact hh1
  have aux : ∀ (a b : Str), b ≠ [] → lastNotWs (a ++ ('\n' :: b)) = lastNotWs b := by
    intro a b hb
    rw [show a ++ ('\n' :: b) = (a ++ ['\n']) ++ b by simp]
    exact lastNotWs_append _ _ hb
  have hB4 : p5 ++ ('\n' :: p6) ≠ [] := fun hc => ne5 (List.append_eq_nil.mp hc).1
  have hB3 : p4 ++ ('\n' :: (p5 ++ ('\n' :: p6))) ≠ [] :=
    fun hc => ne4 (List.append_eq_nil.mp hc).1
  have hB2 : p3 ++ ('\n' :: (p4 ++ ('\n' :: (p5 ++ ('\n' :: p6))))) ≠ [] :=
    fun hc => ne3 (List.append_eq_nil.mp hc).1
  have hB1 : p2 ++ ('\n' :: (p3 ++ ('\n' :: (p4 ++ ('\n' :: (p5 ++ ('\n' :: p6))))))) ≠ [] :=
    fun hc => ne2 (List.append_eq_nil.mp hc).1
  have hPlast : lastNotWs (joined [p1, p2, p3, p4, p5, p6]) = true := by
    rw [hPdef, aux _ _ hB1, aux _ _ hB2, aux _ _ hB3, aux _ _ hB4, aux _ _ ne6]
    exact hl6
  have e1 := extract_players_eq _ hPne hPhead hPlast H1
  have e2 := extract_posoff_eq _ H2
  have e3 := extract_statsoff_eq _ H3
  have e4 := extract_posneed_eq _ H4
  have e5 := extract_statsneed_eq _ H5
  have e6 := extract_comment_eq _ H6
  have hres : ((resplit (joined [p1, p2, p3, p4, p5, p6])).map strip).filter
      (fun p => p ≠ []) = [p1, p2, p3, p4, p5, p6] := by
    rw [resplit_joined p1 p2 p3 p4 p5 p6 g1 g2 g3 g4 g5 g6]
    simp only [List.map_cons, List.map_nil,
      strip_good p1 hh1 hl1, strip_good p2 hh2 hl2, strip_good p3 hh3 hl3,
      strip_good p4 hh4 hl4, strip_good p5 hh5 hl5, strip_good p6 hh6 hl6]
    simp [List.filter, ne1, ne2, ne3, ne4, ne5, ne6]
  have hteam : searchTeam (mkBodyP (joined [p1, p2, p3, p4, p5, p6])) = some teamGroup := rfl
  have hocc : occurs ((r" - ").toList) (strip teamGroup) = true := by decide
  have hbody : mkBlankBody [p1, p2, p3, p4, p5, p6] =
      mkBodyP (joined [p1, p2, p3, p4, p5, p6]) := rfl
  rw [hbody]
  unfold parse_trade_block
  rw [hteam]
  dsimp only
  rw [e1, e2, e3, e4, e5, e6, hres, hocc]
  simp only [Option.some.injEq, TradeBlock.mk.injEq, orNoneSpecified]
  refine ⟨by decide, trivial, by decide, by decide, by decide, by decide, trivial⟩

set_option maxRecDepth 40000

/-- C1 counterexample: on a blank-sections body built from the repository's
own six test names, the parser leaves `comment` as the empty string rather
than the `"(None specified)"` sentinel claimed for every text field. -/
theorem claim_C1_counterexample :
    (parse_trade_block (mkBlankBody testPlayers)).map TradeBlock.comment = some [] ∧
    ([] : Str) ≠ noneSpecified := by
  decide

/-- C1 (amended): for a reduced body containing the league-prefixed team line
(yielding team `Grand Salamis` after stripping the prefix joined by `" - "`)
and a six-name `Players Offered` section with all other sections blank, the
parser returns exactly those six names in their original order, and the four
section fields `positions_offered`, `stats_offered`, `positions_needed` and
`stats_needed` equal the sentinel `"(None specified)"`, while `comment` —
which has no sentinel default in the code — is the empty string; absence of
the team match yields no result for the whole parse.  The names are assumed
well formed (`goodName`) and the section labels are assumed not to occur
earlier than their own lines (`firstOccAt`). -/
theorem claim_C1_trade_block :
    (∀ text : Str, searchTeam text = none → parse_trade_block text = none) ∧
    (∀ p1 p2 p3 p4 p5 p6 : Str,
      goodName p1 = true → goodName p2 = true → goodName p3 = true →
      goodName p4 = true → goodName p5 = true → goodName p6 = true →
      firstOccAt lblPosC ('\n' :: (joined [p1, p2, p3, p4, p5, p6] ++ ['\n'])) tailAfterPos →
      firstOccAt lblPosC (prePosOff (joined [p1, p2, p3, p4, p5, p6])) tailAfterPos →
      firstOccAt lblStatsC (preStatsOff (joined [p1, p2, p3, p4, p5, p6])) tailAfterStats →
      firstOccAt lblPosNeedC (prePosNeed (joined [p1, p2, p3, p4, p5, p6])) tailAfterPosNeed →
      firstOccAt lblStatsNeedC (preStatsNeed (joined [p1, p2, p3, p4, p5, p6]))
        tailAfterStatsNeed →
      firstOccAt lblCommentC (preComment (joined [p1, p2, p3, p4, p5, p6])) tailAfterComment →
      parse_trade_block (mkBlankBody [p1, p2, p3, p4, p5, p6]) =
        some
          { team := (r"Grand Salamis").toList,
            players_offered := [p1, p2, p3, p4, p5, p6],
            positions_offered := noneSpecified, stats_offered := noneSpecified,
            positions_needed := noneSpecified, stats_needed := noneSpecified,
            comment := [] }) := by
  constructor
  · intro text h
    unfold parse_trade_block
    rw [h]
  · intro p1 p2 p3 p4 p5 p6 g1 g2 g3 g4 g5 g6 H1 H2 H3 H4 H5 H6
    exact trade_block_roundtrip_aux p1 p2 p3 p4 p5 p6 g1 g2 g3 g4 g5 g6 H1 H2 H3 H4 H5 H6

/-- Witness for C1: the hypotheses hold for the six test names of the
repository's round-trip test, and the parse returns them with the four
sentinels and an empty comment. -/
theorem claim_C1_witness :
    parse_trade_block (mkBlankBody testPlayers) =
      some
        { team := (r"Grand Salamis").toList,
          players_offered := testPlayers,
          positions_offered := noneSpecified, stats_offered := noneSpecified,
          positions_needed := noneSpecified, stats_needed := noneSpecified,
          comment := [] } := by
  exact claim_C1_trade_block.2
    ((r"Contreras, Willson").toList) ((r"Turner, Trea").toList) ((r"Smith, Cam").toList)
    ((r"Wallner, Matt").toList) ((r"Miller, Bryce").toList) ((r"Pfaadt, Brandon").toList)
    (by decide) (by decide) (by decide) (by decide) (by decide) (by decide)
    (by decide) (by decide) (by decide) (by decide) (by decide) (by decide)


end Doobot
